import Mathlib

/-!
Verification development for the apitap ETL engine.

Shallow embedding of the Rust sources under `src/`:
`src/utils/schema.rs` (streaming schema inference), `src/utils/template.rs`
(date template functions and `substitute_templates`), `src/config/templating.rs`
(the minijinja environment with capture functions), `src/pipeline/run.rs`
(`run_fetch`), `src/pipeline/sink.rs` (`make_writer`), and `src/cmd/mod.rs`
(`execute_pipeline_job` helpers).

Rust machine integers are modelled as `Nat`/`Int` with explicit bounds where
overflow or range checks occur; fallible Rust code returns `Except Err`.
Rust's `HashMap` iteration order is genuinely unspecified (RandomState), so the
schema-inference result is modelled as a relation parameterised by the
iteration order, constrained to be a permutation of the keys.

A few record types (`Source`, `Retry`, `QueryParam`, `Pagination`,
`FetchStats`) are declared in `src/pipeline/mod.rs` / `src/http/fetcher.rs`,
which are not part of the provided sources; those are modelled from the spec
(section 3) and from their uses visible in `run.rs` / `cmd/mod.rs`, and are
marked as such in their doc comments.
-/

namespace Apitap

/-- Error type mirroring the `ApitapError` variants of `src/errors/mod.rs` that
the embedded code can produce.  `runtimePanic` models a Rust panic (an abort,
not an `ApitapError`), used for `chrono::Duration::days` bound violations. -/
inductive Err where
  | pipelineError (msg : String)
  | configError (msg : String)
  | paginationError (msg : String)
  | minijinja (msg : String)
  | runtimePanic (msg : String)
deriving DecidableEq, Repr

instance {ε α : Type} [DecidableEq ε] [DecidableEq α] : DecidableEq (Except ε α) := fun
  | .ok a, .ok b => if h : a = b then .isTrue (by rw [h]) else .isFalse (by simp [h])
  | .ok _, .error _ => .isFalse (by simp)
  | .error _, .ok _ => .isFalse (by simp)
  | .error e, .error f => if h : e = f then .isTrue (by rw [h]) else .isFalse (by simp [h])

/-- Field type lattice of `src/utils/schema.rs` (`enum FieldType`). -/
inductive FieldType where
  | unknown
  | boolean
  | int64
  | float64
  | string
  | list
  | struct
deriving DecidableEq, Repr

/-- Transcription of `FieldType::merge` (src/utils/schema.rs lines 116-128);
the match arms are kept in source order, so earlier arms take priority exactly
as in Rust. -/
def FieldType.merge : FieldType → FieldType → FieldType
  | .unknown, t => t
  | t, .unknown => t
  | .boolean, .boolean => .boolean
  | .int64, .int64 => .int64
  | .int64, .float64 => .float64
  | .float64, .int64 => .float64
  | .float64, .float64 => .float64
  | .string, _ => .string
  | _, .string => .string
  | .list, .list => .list
  | .struct, .struct => .struct
  | _, _ => .string

/-- JSON values (`serde_json::Value`).  Objects are modelled as association
lists in the map's iteration order.  A float payload carries no data: the
schema-inference code reads only the `is_f64` tag of a number, and floating
point values themselves are not shallowly embeddable. -/
inductive Json where
  | null
  | bool (b : Bool)
  | numInt (n : Int)
  | numFloat
  | str (s : String)
  | arr (elems : List Json)
  | obj (fields : List (String × Json))

/-- Test for `Value::Null`. -/
def Json.isNull : Json → Bool
  | .null => true
  | _ => false

/-- Per-field inference state (`struct FieldInference`, src/utils/schema.rs). -/
structure FieldInference where
  data_type : FieldType
  is_nullable : Bool
deriving DecidableEq, Repr

/-- Transcription of `FieldInference::new`. -/
def FieldInference.new : FieldInference := ⟨.unknown, false⟩

/-- Transcription of `FieldInference::observe` (src/utils/schema.rs lines
66-89).  `numInt` is a `serde_json` number with `is_f64() = false`, `numFloat`
one with `is_f64() = true`. -/
def FieldInference.observe (f : FieldInference) (v : Json) : FieldInference :=
  match v with
  | .null => { f with is_nullable := true }
  | .bool _ => { f with data_type := f.data_type.merge .boolean }
  | .numInt _ => { f with data_type := f.data_type.merge .int64 }
  | .numFloat => { f with data_type := f.data_type.merge .float64 }
  | .str _ => { f with data_type := f.data_type.merge .string }
  | .arr _ => { f with data_type := f.data_type.merge .string }
  | .obj _ => { f with data_type := f.data_type.merge .string }

/-- Arrow data types that `FieldInference::to_data_type` can produce. -/
inductive DataType where
  | boolean
  | int64
  | float64
  | utf8
  | listUtf8
deriving DecidableEq, Repr

/-- Transcription of `FieldInference::to_data_type` (src/utils/schema.rs lines
91-101). -/
def FieldInference.to_data_type (f : FieldInference) : DataType :=
  match f.data_type with
  | .unknown => .utf8
  | .boolean => .boolean
  | .int64 => .int64
  | .float64 => .float64
  | .string => .utf8
  | .list => .listUtf8
  | .struct => .utf8

/-- An Arrow schema field (`Field::new(name, data_type, nullable)`). -/
structure Field where
  name : String
  dataType : DataType
  nullable : Bool
deriving DecidableEq, Repr

/-- Association-list lookup with propositional equality (the contents of the
Rust `HashMap<String, FieldInference>` are represented canonically as an
association list in first-insertion order; lookup is by key). -/
def alookup (k : String) : List (String × FieldInference) → Option FieldInference
  | [] => none
  | p :: rest => if p.1 = k then some p.2 else alookup k rest

/-- One step of the sampling loop body: `field_types.entry(key).or_insert_with(new)`
followed by `field.observe(&val)`.  Updating an existing key edits its entry in
place; a new key is appended (first-insertion order is the canonical listing of
the map's contents). -/
def observePair (acc : List (String × FieldInference)) (k : String) (v : Json) :
    List (String × FieldInference) :=
  match alookup k acc with
  | some _ => acc.map (fun p => if p.1 = k then (p.1, p.2.observe v) else p)
  | none => acc ++ [(k, FieldInference.new.observe v)]

/-- Processing of one sampled record: objects contribute every key/value pair
in map iteration order; non-objects are skipped (src/utils/schema.rs lines
20-27). -/
def observeRecord (acc : List (String × FieldInference)) (v : Json) :
    List (String × FieldInference) :=
  match v with
  | .obj o => o.foldl (fun a p => observePair a p.1 p.2) acc
  | _ => acc

/-- Number of records the sampling loop consumes (`MIN_SAMPLES`). -/
def MIN_SAMPLES : Nat := 100

/-- The sample window: the loop consumes stream items until it has seen
`MIN_SAMPLES` of them (or the stream ends); a stream error among the consumed
items propagates (`let value = result?`). -/
def sampleWindow (items : List (Except Err Json)) : Except Err (List Json) :=
  (items.take MIN_SAMPLES).mapM id

/-- The `HashMap` contents after the sampling loop, listed in first-insertion
order. -/
def sampleFields (window : List Json) : List (String × FieldInference) :=
  window.foldl observeRecord []

/-- The schema produced by `infer_schema_streaming` (src/utils/schema.rs lines
10-50) for a GIVEN `HashMap` iteration order `order`: the Rust code drains the
map with `into_iter()`, whose order is unspecified, so it is a parameter here.
`order` is meaningful when it is a permutation of the map's keys (see
`InferResult`). -/
def inferSchemaFields (order : List String) (items : List (Except Err Json)) :
    Except Err (List Field) :=
  match sampleWindow items with
  | .error e => .error e
  | .ok window =>
    let m := sampleFields window
    if m.isEmpty then
      .error (.pipelineError ("No fields found in JSON stream"))
    else
      .ok (order.filterMap (fun k =>
        (alookup k m).map (fun inf => Field.mk k inf.to_data_type inf.is_nullable)))

/-- The input/output relation of `infer_schema_streaming`: some admissible
`HashMap` iteration order (a permutation of the keys) yields exactly these
fields.  This is the faithful semantics of draining a `std::collections::HashMap`
with `RandomState`: each key appears once, in unspecified order. -/
def InferResult (items : List (Except Err Json)) (fields : List Field) : Prop :=
  ∃ order window,
    sampleWindow items = .ok window ∧
    order.Perm ((sampleFields window).map Prod.fst) ∧
    inferSchemaFields order items = .ok fields

/-- Spec-side definition: the field names of the sampled records in order of
first appearance (spec: "Field order: the order of first appearance in the
sampled records"). -/
def firstAppearanceKeys (window : List Json) : List String :=
  window.foldl
    (fun ks v =>
      match v with
      | .obj o => o.foldl (fun ks p => if p.1 ∈ ks then ks else ks ++ [p.1]) ks
      | _ => ks)
    []

/-- Spec-side predicate: field `k` was observed with a `null` value in at
least one sampled object record. -/
def observedNullInWindow (window : List Json) (k : String) : Bool :=
  window.any (fun v =>
    match v with
    | .obj o => o.any (fun p => decide (p.1 = k) && p.2.isNull)
    | _ => false)

/-- Spec-side predicate: field `k` is missing from at least one sampled object
record. -/
def missingInWindow (window : List Json) (k : String) : Bool :=
  window.any (fun v =>
    match v with
    | .obj o => !(o.any (fun p => decide (p.1 = k)))
    | _ => false)

/-- Concrete stream for the C1 counterexample: one object record with keys
`a` then `b`. -/
def exStreamC1 : List (Except Err Json) :=
  [.ok (.obj [("a", .numInt 1), ("b", .numInt 2)])]

/-- The schema fields `infer_schema_streaming` yields on `exStreamC1` when the
`HashMap` happens to iterate `b` before `a`. -/
def exFieldsC1 : List Field :=
  [⟨"b", .int64, false⟩, ⟨"a", .int64, false⟩]

/-- Concrete stream for the C2 counterexample: field `a` is present in the
first record and missing from the second, and is never null. -/
def exStreamC2 : List (Except Err Json) :=
  [.ok (.obj [("a", .numInt 1)]), .ok (.obj [("b", .numInt 2)])]

/-- The schema fields on `exStreamC2` for iteration order `[a, b]`: note `a`
is NOT marked nullable although it is missing from the second record. -/
def exFieldsC2 : List Field :=
  [⟨"a", .int64, false⟩, ⟨"b", .int64, false⟩]

/-! ### Date model (chrono `NaiveDate`, local clock abstracted as a parameter)

`current_date` and `few_date_ago` (src/utils/template.rs) read the local
clock.  The clock is abstracted as an explicit `NaiveDate` parameter `today`
(days since 1970-01-01); both functions are deterministic functions of it.
Formatting with `%Y-%m-%d` is realised by converting the day count to a
proleptic-Gregorian civil date. -/

/-- A calendar date as a signed count of days since 1970-01-01. -/
structure NaiveDate where
  days : Int
deriving DecidableEq, Repr

/-- Decimal digit character for `n % 10`. -/
def digitChar (n : Nat) : Char :=
  match n % 10 with
  | 0 => '0' | 1 => '1' | 2 => '2' | 3 => '3' | 4 => '4'
  | 5 => '5' | 6 => '6' | 7 => '7' | 8 => '8' | _ => '9'

/-- Decimal digits of `n` (most significant first), fuel-bounded so that it is
structurally recursive; 24 digits of fuel covers every `Nat` arising here. -/
def natDigitsAux : Nat → Nat → List Char → List Char
  | 0, _, acc => acc
  | fuel + 1, n, acc =>
    if n < 10 then digitChar n :: acc
    else natDigitsAux fuel (n / 10) (digitChar (n % 10) :: acc)

/-- Decimal digits of `n`, most significant first. -/
def natDigits (n : Nat) : List Char := natDigitsAux 24 n []

/-- Left-pad a digit string with zeros to width `w` (chrono `%Y`/`%m`/`%d`
zero padding). -/
def padZeros (w : Nat) (ds : List Char) : List Char :=
  List.replicate (w - ds.length) '0' ++ ds

/-- Proleptic-Gregorian civil date `(year, month, day)` from a day count
relative to 1970-01-01 (standard era-based conversion). -/
def civilFromDays (z0 : Int) : Int × Nat × Nat :=
  let z := z0 + 719468
  let era := z.fdiv 146097
  let doe := (z - era * 146097).toNat
  let yoe := (doe - doe / 1460 + doe / 36524 - doe / 146096) / 365
  let y := (yoe : Int) + era * 400
  let doy := doe - (365 * yoe + yoe / 4 - yoe / 100)
  let mp := (5 * doy + 2) / 153
  let d := doy - (153 * mp + 2) / 5 + 1
  if mp < 10 then (y, mp + 3, d) else (y + 1, mp - 9, d)

/-- Day count of a proleptic-Gregorian civil date (inverse of
`civilFromDays`); used only to fix the `NaiveDate` range constants. -/
def daysFromCivil (y : Int) (m d : Nat) : Int :=
  let y' := if m ≤ 2 then y - 1 else y
  let era := y'.fdiv 400
  let yoe := (y' - era * 400).toNat
  let doy := (153 * (if m > 2 then m - 3 else m + 9) + 2) / 5 + d - 1
  let doe := yoe * 365 + yoe / 4 - yoe / 100 + doy
  era * 146097 + (doe : Int) - 719468

/-- Smallest day count representable by `chrono::NaiveDate` (January 1 of
year -262144). -/
def naiveDateMinDays : Int := daysFromCivil (-262144) 1 1

/-- Largest day count representable by `chrono::NaiveDate` (December 31 of
year 262143). -/
def naiveDateMaxDays : Int := daysFromCivil 262143 12 31

/-- The representation invariant every `chrono::NaiveDate` value satisfies. -/
def dateInRange (t : NaiveDate) : Prop :=
  naiveDateMinDays ≤ t.days ∧ t.days ≤ naiveDateMaxDays

instance (t : NaiveDate) : Decidable (dateInRange t) := by
  unfold dateInRange; infer_instance

/-- Format a date as `%Y-%m-%d` (chrono zero-pads the year to 4 digits and
the month/day to 2; a negative year gets a leading minus sign). -/
def formatYmd (t : NaiveDate) : String :=
  match civilFromDays t.days with
  | (y, m, d) =>
    String.mk ((if y < 0 then ['-'] else []) ++ padZeros 4 (natDigits y.natAbs)
      ++ '-' :: padZeros 2 (natDigits m) ++ '-' :: padZeros 2 (natDigits d))

/-- Transcription of `current_date` (src/utils/template.rs lines 70-76):
`Local::now().format("%Y-%m-%d")`, with the clock passed explicitly. -/
def current_date (today : NaiveDate) : String := formatYmd today

/-- `chrono::NaiveDate::checked_sub_signed(Duration::days(n))`: subtract `n`
days, `none` if the result leaves the representable range. -/
def checkedSubDays (t : NaiveDate) (n : Int) : Option NaiveDate :=
  let r := t.days - n
  if naiveDateMinDays ≤ r ∧ r ≤ naiveDateMaxDays then some ⟨r⟩ else none

/-- Largest absolute day count accepted by `chrono::Duration::days` (beyond
it the constructor panics). -/
def durationMaxDays : Int := 106751991167

/-- Transcription of `few_date_ago` (src/utils/template.rs lines 129-145):
negative day counts are rejected up front; `Duration::days` panics outside its
bound; `checked_sub_signed` returning `None` yields the range error. -/
def few_date_ago (today : NaiveDate) (days : Int) : Except Err String :=
  if days < 0 then
    .error (.pipelineError ("days must be non-negative"))
  else if durationMaxDays < days then
    .error (.runtimePanic ("Duration::days out of bounds"))
  else
    match checkedSubDays today days with
    | none => .error (.pipelineError ("date out of range"))
    | some target => .ok (formatYmd target)

/-- Digits-only decimal parse (`None` on empty or non-digit input). -/
def parseDigits (cs : List Char) : Option Nat :=
  if cs.isEmpty then none
  else if cs.all Char.isDigit then
    some (cs.foldl (fun a c => a * 10 + (c.toNat - 48)) 0)
  else none

/-- Rust `str::parse::<i64>()`: optional sign, decimal digits, value must fit
in a 64-bit signed integer. -/
def parseI64 (cs : List Char) : Option Int :=
  match cs with
  | '+' :: rest =>
    (parseDigits rest).bind (fun n => if (n : Int) ≤ 2 ^ 63 - 1 then some (n : Int) else none)
  | '-' :: rest =>
    (parseDigits rest).bind (fun n => if (n : Int) ≤ 2 ^ 63 then some (-(n : Int)) else none)
  | _ =>
    (parseDigits cs).bind (fun n => if (n : Int) ≤ 2 ^ 63 - 1 then some (n : Int) else none)

/-- Transcription of the `parse_function!` macro (src/utils/template.rs lines
5-24): dispatch on the captured call text. -/
def parse_function (today : NaiveDate) (input : String) : Except Err String :=
  if input = "current_date()" then
    .ok (current_date today)
  else if ("few_date_ago(".data.isPrefixOf input.data) && (input.data.getLast? = some ')') then
    let argStr := (input.data.drop 13).dropLast
    match parseI64 argStr with
    | none => .error (.pipelineError ("Invalid argument: " ++ String.mk argStr))
    | some days => few_date_ago today days
  else
    .error (.pipelineError ("Unknown function: " ++ input))

/-! ### The template regex scanner

`substitute_templates` (src/utils/template.rs lines 164-188) drives the regex
`\{\{\s*([a-zA-Z_][a-zA-Z0-9_]*\([^}]*\))\s*\}\}` over the text with
`captures_iter`, replacing each non-overlapping leftmost match by the value of
`parse_function!` on the captured group.  The scanner below implements exactly
that match semantics: at a position, `{{`, then maximal whitespace, then a
maximal identifier, then `(`, then the maximal `}`-free run `B`, which must
consist of the argument text, a closing `)` and trailing whitespace (greedy
backtracking selects the last `)` of `B` whose suffix within `B` is all
whitespace), then `}}`. -/

/-- Whitespace class of the regex `\s` (Unicode whitespace, as matched by the
Rust `regex` crate). -/
def isWs (c : Char) : Bool :=
  c = ' ' || c = '\t' || c = '\n' || c = '\r' || c = '\u000b' || c = '\u000c'
    || c = '\u0085' || c = '\u00a0' || c = '\u1680'
    || ('\u2000' ≤ c && c ≤ '\u200a')
    || c = '\u2028' || c = '\u2029' || c = '\u202f' || c = '\u205f' || c = '\u3000'

/-- Character class `[a-zA-Z_]` (identifier start). -/
def isIdentStart (c : Char) : Bool :=
  ('a' ≤ c && c ≤ 'z') || ('A' ≤ c && c ≤ 'Z') || c = '_'

/-- Character class `[a-zA-Z0-9_]` (identifier continuation). -/
def isIdentChar (c : Char) : Bool :=
  isIdentStart c || ('0' ≤ c && c ≤ '9')

/-- Maximal identifier at the head of the input: `[a-zA-Z_][a-zA-Z0-9_]*`.
Returns the identifier and the remainder. -/
def takeIdent (s : List Char) : Option (List Char × List Char) :=
  match s with
  | [] => none
  | c :: cs =>
    if isIdentStart c then some (c :: cs.takeWhile isIdentChar, cs.dropWhile isIdentChar)
    else none

/-- Given the maximal `}`-free run `B` that follows the opening `(`, find the
argument split selected by greedy backtracking of `[^}]*\)\s*`: strip trailing
whitespace from `B`; the last remaining character must be `)`, and what
precedes it is the captured argument text. -/
def stripArgs (B : List Char) : Option (List Char) :=
  match B.reverse.dropWhile isWs with
  | d :: restRev => if d = ')' then some restRev.reverse else none
  | [] => none

/-- Attempt to match the template regex at the head of `s`.  On success,
returns the capture group (`ident(args)`) and the remainder of the input after
the match. -/
def matchAt (s : List Char) : Option (List Char × List Char) :=
  match s with
  | c1 :: c2 :: r0 =>
    if c1 = '{' ∧ c2 = '{' then
      match takeIdent (r0.dropWhile isWs) with
      | none => none
      | some (ident, r2) =>
        match r2 with
        | d0 :: r3 =>
          if d0 = '(' then
            match stripArgs (r3.takeWhile (fun c => !(c = '}' : Bool))) with
            | none => none
            | some args =>
              match r3.dropWhile (fun c => !(c = '}' : Bool)) with
              | d1 :: d2 :: r5 =>
                if d1 = '}' ∧ d2 = '}' then some (ident ++ '(' :: (args ++ [')']), r5)
                else none
              | _ => none
          else none
        | [] => none
    else none
  | _ => none

/-- Leftmost match: the text before the match, the capture, and the remainder
after the match. -/
def findMatch : List Char → Option (List Char × List Char × List Char)
  | [] => none
  | c :: cs =>
    match matchAt (c :: cs) with
    | some (cap, rem) => some ([], cap, rem)
    | none =>
      match findMatch cs with
      | some (pre, cap, rem) => some (c :: pre, cap, rem)
      | none => none

/-- The `captures_iter` loop of `substitute_templates`, fuel-bounded (each
match consumes at least four characters, so `length + 1` fuel always
suffices; see `substituteFuel_irrel`). -/
def substituteFuel (today : NaiveDate) : Nat → List Char → Except Err (List Char)
  | 0, _ => .error (.pipelineError ("substitution fuel exhausted"))
  | fuel + 1, s =>
    match findMatch s with
    | none => .ok s
    | some (pre, cap, rem) =>
      match parse_function today (String.mk cap) with
      | .error e => .error e
      | .ok v =>
        match substituteFuel today fuel rem with
        | .error e => .error e
        | .ok rest => .ok (pre ++ v.data ++ rest)

/-- Transcription of `substitute_templates` (src/utils/template.rs lines
164-188), with the local clock passed explicitly. -/
def substitute_templates (today : NaiveDate) (text : String) : Except Err String :=
  match substituteFuel today (text.data.length + 1) text.data with
  | .error e => .error e
  | .ok cs => .ok (String.mk cs)

/-! ### Pipeline configuration records

`Source`, `QueryParam`, `Retry` and `Pagination` are declared in
`src/pipeline/mod.rs` / `src/http/fetcher.rs`, which are not among the provided
sources.  They are modelled from the spec (section 3) and from the field and
variant names visible in `run.rs` and `cmd/mod.rs`. -/

/-- Modelled from the spec: a `query_params` entry (`{key, value}`). -/
structure QueryParam where
  key : String
  value : String
deriving DecidableEq, Repr

/-- Modelled from the spec: the retry record `{ max_attempts, base_delay_ms,
multiplier, max_delay_ms }`.  The `f64` multiplier carries no data in this
embedding (floating point is not shallowly embeddable, and no embedded code
reads it). -/
structure Retry where
  max_attempts : Nat
  base_delay_ms : Nat
  multiplier : Unit
  max_delay_ms : Nat
deriving DecidableEq, Repr

/-- Modelled from the spec (section 3) and the patterns matched in
src/pipeline/run.rs lines 73-156: the pagination tagged variant. -/
inductive Pagination where
  | limitOffset (limit_param offset_param : String)
  | pageNumber (page_param per_page_param : String)
  | pageOnly (page_param : String)
  | cursor (cursor_param page_size_param : String)
  | default
deriving DecidableEq, Repr

/-- Modelled from the spec: `FetchStats = { total_items, pages_fetched,
retries, elapsed_ms }` (section 3); `FetchStats::new` initialises all counters
to zero ("empty runs with zero records"). -/
structure FetchStats where
  total_items : Nat
  pages_fetched : Nat
  retries : Nat
  elapsed_ms : Nat
deriving DecidableEq, Repr

/-- Modelled from the spec: a freshly initialised (all-zero) `FetchStats`. -/
def FetchStats.new : FetchStats := ⟨0, 0, 0, 0⟩

/-- Modelled from the spec: the `Source` record (section 3). -/
structure Source where
  url : String
  headers : Option (List QueryParam)
  data_path : Option String
  query_params : Option (List QueryParam)
  pagination : Option Pagination
  retry : Retry
  table_destination_name : Option String
  primary_key_in_dest : Option String
deriving DecidableEq, Repr

/-- Transcription of `FetchOpts` (src/pipeline/run.rs lines 14-19). -/
structure FetchOpts where
  concurrency : Nat
  default_page_size : Nat
  fetch_batch_size : Nat
deriving DecidableEq, Repr

/-- Transcription of `FetchRequest` (src/pipeline/run.rs lines 22-30); the
HTTP client and parsed URL carry no behaviour in this embedding. -/
structure FetchRequest where
  url : String
  data_path : Option String
  extra_params : Option (List QueryParam)
  pagination : Option Pagination
  retry : Retry
deriving DecidableEq, Repr

/-- Transcription of `QueryConfig` (src/pipeline/run.rs lines 33-37). -/
structure QueryConfig where
  sql : String
  dest_table : String
deriving DecidableEq, Repr

/-- Write mode (`src/writer/mod.rs`). -/
inductive WriteMode where
  | merge
  | append
deriving DecidableEq, Repr

/-- Transcription of `WriteConfig` (src/pipeline/run.rs lines 40-43); the
trait-object writer carries no behaviour in this embedding. -/
structure WriteConfig where
  write_mode : WriteMode
deriving DecidableEq, Repr

/-- Oracle for the paginated HTTP fetcher (`src/http/fetcher.rs`, not among
the provided sources).  `fetch_limit_offset` / `fetch_page_number` return the
run's stats (or a failure) together with the number of HTTP page requests they
performed.  `run_fetch` is proved for every oracle, so nothing is assumed
about the missing code. -/
structure FetcherOracle where
  fetch_limit_offset :
    String → String → Nat → Option String → List (String × String) → Retry →
      QueryConfig → WriteMode → Except Err FetchStats × Nat
  fetch_page_number :
    String → String → Nat → Option String → Retry →
      QueryConfig → WriteMode → Except Err FetchStats × Nat

/-- Transcription of `clean_param` (src/pipeline/run.rs lines 45-57): every
query-parameter value is passed through `substitute_templates`; the first
failure aborts. -/
def clean_param (today : NaiveDate) (params : Option (List QueryParam)) :
    Except Err (List (String × String)) :=
  match params with
  | some ps => ps.mapM (fun q =>
      match substitute_templates today q.value with
      | .error e => .error e
      | .ok v => .ok (q.key, v))
  | none => .ok []

/-- The `usize → u64` bound used by the `try_into` page-size conversions. -/
def u64Bound : Nat := 2 ^ 64

/-- Transcription of `run_fetch` (src/pipeline/run.rs lines 58-157).  The
returned `Nat` counts the HTTP page requests performed (0 when no fetcher
method is ever invoked).  Building a `PaginatedFetcher` or a
`DataFusionPageWriter` performs no I/O. -/
def run_fetch (oracle : FetcherOracle) (today : NaiveDate) (request : FetchRequest)
    (query : QueryConfig) (write_config : WriteConfig) (opts : FetchOpts) :
    Except Err FetchStats × Nat :=
  match clean_param today request.extra_params with
  | .error e => (.error e, 0)
  | .ok extra_params_vec =>
    match request.pagination with
    | some (.limitOffset limit_param offset_param) =>
      if opts.default_page_size < u64Bound then
        oracle.fetch_limit_offset limit_param offset_param opts.default_page_size
          request.data_path extra_params_vec request.retry query write_config.write_mode
      else
        (.error (.configError ("Invalid page size: " ++ Nat.repr opts.default_page_size
          ++ " (must fit in u64)")), 0)
    | some (.pageNumber page_param per_page_param) =>
      if opts.default_page_size < u64Bound then
        oracle.fetch_page_number page_param per_page_param opts.default_page_size
          request.data_path request.retry query write_config.write_mode
      else
        (.error (.configError ("Invalid page size: " ++ Nat.repr opts.default_page_size
          ++ " (must fit in u64)")), 0)
    | some (.pageOnly _) => (.ok FetchStats.new, 0)
    | some (.cursor _ _) => (.ok FetchStats.new, 0)
    | some .default => (.error (.paginationError ("no supported pagination configured")), 0)
    | none => (.error (.paginationError ("no supported pagination configured")), 0)

/-! ### Writer construction (`src/cmd/mod.rs`, `src/pipeline/sink.rs`) -/

/-- Transcription of `WriterOpts` (src/pipeline/sink.rs lines 15-25). -/
structure WriterOpts where
  dest_table : String
  primary_key : Option String
  batch_size : Nat
  sample_size : Nat
  auto_create : Bool
  auto_truncate : Bool
  truncate_first : Bool
  write_mode : WriteMode
deriving DecidableEq, Repr

/-- Transcription of `create_writer_options` (src/cmd/mod.rs lines 342-353). -/
def create_writer_options (dest_table : String) (source : Source) : WriterOpts :=
  { dest_table := dest_table
    primary_key := source.primary_key_in_dest
    batch_size := 50
    sample_size := 10
    auto_create := true
    auto_truncate := false
    truncate_first := false
    write_mode := .merge }

/-- The concrete `PostgresWriter` configuration built by
`MakeWriter::make_writer` (src/pipeline/sink.rs lines 31-64) from the writer
options. -/
structure PostgresWriter where
  dest_table : String
  primary_key : Option String
  batch_size : Nat
  sample_size : Nat
  auto_create : Bool
  auto_truncate : Bool
deriving DecidableEq, Repr

/-- Transcription of `MakeWriter::make_writer` for `TargetConn` (src/pipeline/
sink.rs lines 31-64): builds the concrete writer and, when `truncate_first`
is set, a truncate hook (modelled as `some ()`). -/
def make_writer (opts : WriterOpts) : PostgresWriter × Option Unit :=
  (⟨opts.dest_table, opts.primary_key, opts.batch_size, opts.sample_size,
    opts.auto_create, opts.auto_truncate⟩,
   if opts.truncate_first then some () else none)

/-! ### Template environment captures (`src/config/templating.rs`) -/

/-- Transcription of `RenderCapture` (src/config/templating.rs lines 10-14).
It has exactly two fields; there is no `schedule` field in the source. -/
structure RenderCapture where
  sink : String
  source : String
deriving DecidableEq, Repr

/-- The default capture (`RenderCapture::default()`). -/
def RenderCapture.default : RenderCapture := ⟨"", ""⟩

/-- The names of the template functions `build_env_with_captures`
(src/config/templating.rs lines 53-88) registers on the environment. -/
def envFunctions : List String := ["sink", "use_source"]

/-- One template function call during rendering, as dispatched by the
environment built by `build_env_with_captures`: `sink(name=arg)` records the
sink and yields `""`; `use_source(arg)` records the source and yields `arg`;
calling any other name is a minijinja unknown-function error. -/
def callEnvFunction (cap : RenderCapture) (name arg : String) :
    Except Err (RenderCapture × String) :=
  if name = "sink" then .ok ({ cap with sink := arg }, "")
  else if name = "use_source" then .ok ({ cap with source := arg }, arg)
  else .error (.minijinja ("unknown function: " ++ name))

/-! ### The orchestrator's SQL rewrite (`src/cmd/mod.rs` lines 273-274) -/

/-- Transcription of `extract_destination_table` (src/cmd/mod.rs lines
332-339). -/
def extract_destination_table (source : Source) (source_name : String) :
    Except Err String :=
  match source.table_destination_name with
  | some t => .ok t
  | none => .error (.pipelineError
      ("table_destination_name is required for source: " ++ source_name))

/-- Core of Rust `str::replace` for a non-empty pattern `p :: ps`: successive
non-overlapping leftmost matches are replaced (fuel-bounded; each step
consumes at least one character, so `length + 1` fuel always suffices). -/
def replaceNEF (p : Char) (ps rep : List Char) : Nat → List Char → List Char
  | 0, s => s
  | fuel + 1, s =>
    match s with
    | [] => []
    | c :: cs =>
      if (p :: ps).isPrefixOf (c :: cs) then
        rep ++ replaceNEF p ps rep fuel (cs.drop ps.length)
      else
        c :: replaceNEF p ps rep fuel cs

/-- Rust `str::replace(from, to)`: every non-overlapping leftmost occurrence
of `pat` in `s` is replaced by `rep`.  With an empty pattern, `match_indices`
matches at every character boundary, so `rep` is interleaved before every
character and appended at the end. -/
def rustReplace (s pat rep : List Char) : List Char :=
  match pat with
  | [] => rep ++ (s.map (fun c => c :: rep)).flatten
  | p :: ps => replaceNEF p ps rep (s.length + 1) s

/-- Spec-side formulation: the index of the first occurrence of `pat` in `s`
(the smallest position where `pat` is a prefix of the rest), found by direct
search. -/
def firstOccurrence (s pat : List Char) : Option Nat :=
  (List.range (s.length + 1)).find? (fun i => pat.isPrefixOf (s.drop i))

/-- Spec-side formulation of "every occurrence of the substring replaced,
occurrence by occurrence": repeatedly locate the first occurrence, splice in
the replacement, and continue after it (fuel-bounded). -/
def replaceOccFuel (pat rep : List Char) : Nat → List Char → List Char
  | 0, s => s
  | fuel + 1, s =>
    match firstOccurrence s pat with
    | none => s
    | some i => s.take i ++ rep ++ replaceOccFuel pat rep fuel (s.drop (i + pat.length))

/-- Spec-side definition used by claim C6: literal occurrence-by-occurrence
textual substitution of a (non-empty) substring. -/
def specSubstituteOccurrences (s pat rep : List Char) : List Char :=
  if pat.isEmpty then s else replaceOccFuel pat rep (s.length + 1) s

/-- The SQL preparation steps of `execute_pipeline_job` (src/cmd/mod.rs lines
273-274): extract the destination table, then
`sql_template.replace(source_name, dest_table)`. -/
def execute_pipeline_sql (sql_template source_name : String) (source : Source) :
    Except Err String :=
  match extract_destination_table source source_name with
  | .error e => .error e
  | .ok dest_table => .ok (String.mk (rustReplace sql_template.data source_name.data dest_table.data))

/-! ### Nesting predicates for the template idempotence law (claim C9) -/

/-- The list contains no brace characters. -/
def braceFree (t : List Char) : Prop := ∀ c ∈ t, c ≠ '{' ∧ c ≠ '}'

/-- The list contains no opening brace. -/
def noLB (t : List Char) : Prop := ∀ c ∈ t, c ≠ '{'

instance (t : List Char) : Decidable (braceFree t) := by unfold braceFree; infer_instance

instance (t : List Char) : Decidable (noLB t) := by unfold noLB; infer_instance

/-- Matching of a double-brace group's interior against
`\s*([a-zA-Z_][a-zA-Z0-9_]*\([^}]*\))\s*` when the interior contains no brace:
whitespace, an identifier, `(`, then the rest of the interior must be the
argument text followed by `)` and trailing whitespace.  Returns the capture. -/
def bodyCall (body : List Char) : Option (List Char) :=
  match takeIdent (body.dropWhile isWs) with
  | none => none
  | some (ident, r2) =>
    match r2 with
    | d0 :: r3 =>
      if d0 = '(' then
        match stripArgs r3 with
        | none => none
        | some args => some (ident ++ '(' :: (args ++ [')']))
      else none
    | [] => none

/-- Formalisation of "a string with no nested braces": the text decomposes
into brace-free segments and flat `{{ … }}` groups whose interior is itself
brace-free (so no brace-delimited region contains another brace). -/
inductive NoNest : List Char → Prop where
  | plain (t : List Char) (ht : braceFree t) : NoNest t
  | group (t body rest : List Char) (ht : braceFree t) (hb : braceFree body)
      (hrest : NoNest rest) :
      NoNest (t ++ '{' :: '{' :: (body ++ '}' :: '}' :: rest))

/-- Strings on which the template scanner finds no match: brace-open-free
segments interleaved with `{{ … }}` groups whose brace-free interior fails the
call shape. -/
inductive Inert : List Char → Prop where
  | plain (t : List Char) (ht : noLB t) : Inert t
  | group (t body rest : List Char) (ht : noLB t) (hb : braceFree body)
      (hfail : bodyCall body = none) (hrest : Inert rest) :
      Inert (t ++ '{' :: '{' :: (body ++ '}' :: '}' :: rest))

/-! ### Concrete inputs used by witnesses and counterexamples -/

/-- A fixed clock value: 1970-01-01. -/
def epochDate : NaiveDate := ⟨0⟩

/-- A retry record for concrete requests. -/
def defaultRetry : Retry := ⟨3, 100, (), 1000⟩

/-- A fetcher oracle for concrete evaluations (its behaviour is irrelevant:
the branches under test never invoke it). -/
def dummyOracle : FetcherOracle :=
  ⟨fun _ _ _ _ _ _ _ _ => (.ok FetchStats.new, 0),
   fun _ _ _ _ _ _ _ => (.ok FetchStats.new, 0)⟩

/-- A concrete query configuration. -/
def exQuery : QueryConfig := ⟨"select * from t", "t"⟩

/-- A concrete write configuration. -/
def exWrite : WriteConfig := ⟨.merge⟩

/-- The fetch options `execute_pipeline_job` uses (`create_fetch_options`,
src/cmd/mod.rs lines 160-167). -/
def exOpts : FetchOpts := ⟨5, 50, 256⟩

/-- A `PageOnly` request whose query parameter holds an unknown template
function. -/
def reqPageOnlyBad : FetchRequest :=
  ⟨"http://api.example.com", none, some [⟨"k", "{{ bogus() }}"⟩],
   some (.pageOnly "page"), defaultRetry⟩

/-- A `PageOnly` request with no query parameters. -/
def reqPageOnlyGood : FetchRequest :=
  ⟨"http://api.example.com", none, none, some (.pageOnly "page"), defaultRetry⟩

/-- A `Default`-pagination request whose query parameter holds an unknown
template function. -/
def reqDefaultBad : FetchRequest :=
  ⟨"http://api.example.com", none, some [⟨"q", "{{ nosuch() }}"⟩],
   some .default, defaultRetry⟩

/-- A `Default`-pagination request with no query parameters. -/
def reqDefaultPlain : FetchRequest :=
  ⟨"http://api.example.com", none, none, some .default, defaultRetry⟩

/-- Test whether an error value is a pagination error. -/
def Err.isPagination : Err → Bool
  | .paginationError _ => true
  | _ => false

/-- A concrete source record whose destination table is set. -/
def exSource : Source :=
  ⟨"http://api.example.com", none, none, none, some (.limitOffset "limit" "offset"),
   defaultRetry, some "users_dest", some "id"⟩

/-- Whether a `run_fetch` outcome is a pagination error. -/
def resultIsPaginationError (r : Except Err FetchStats) : Bool :=
  match r with
  | .error e => e.isPagination
  | .ok _ => false

/-! ## Theorems -/

/-- C8: the schema-inference type merge is commutative, `Unknown` is an
identity, same-type merges yield themselves, `Int64 ⊕ Float64 = Float64`, and
`String` absorbs every other type. -/
theorem fieldType_merge_laws :
    (∀ a b : FieldType, a.merge b = b.merge a) ∧
    (∀ t : FieldType, FieldType.unknown.merge t = t) ∧
    (∀ t : FieldType, t.merge t = t) ∧
    FieldType.int64.merge .float64 = .float64 ∧
    (∀ t : FieldType, FieldType.string.merge t = .string ∧ t.merge .string = .string) := by
  refine ⟨?_, ?_, ?_, rfl, ?_⟩
  · intro a b; cases a <;> cases b <;> rfl
  · intro t; cases t <;> rfl
  · intro t; cases t <;> rfl
  · intro t; cases t <;> exact ⟨rfl, rfl⟩

/-- C4: every writer configuration built by `execute_pipeline_job` (via
`create_writer_options`) uses `Merge` with `truncate_first = false`,
`auto_truncate = false`, `auto_create = true`, `batch_size = 50`,
`sample_size = 10`; hence `make_writer` produces no truncate hook, and the
orchestrator's write mode is never `Append`. -/
theorem create_writer_options_always_merge (dt : String) (src : Source) :
    (create_writer_options dt src).write_mode = .merge ∧
    (create_writer_options dt src).truncate_first = false ∧
    (create_writer_options dt src).auto_truncate = false ∧
    (create_writer_options dt src).auto_create = true ∧
    (create_writer_options dt src).batch_size = 50 ∧
    (create_writer_options dt src).sample_size = 10 ∧
    (make_writer (create_writer_options dt src)).2 = none := by
  exact ⟨rfl, rfl, rfl, rfl, rfl, rfl, rfl⟩

/-- C3 (code bug): the environment built by `build_env_with_captures`
registers only `sink` and `use_source`; `RenderCapture` has no schedule field,
and rendering a template that calls `schedule("…")` fails with an
unknown-function error instead of recording the cron expression — although the
repository's own test (tests/config/templating_tests.rs,
`test_schedule_function_captures_name`) renders such a template expecting
success, and `cmd/mod.rs` line 191 reads `rendered.capture.schedule`, a field
that does not exist. -/
theorem schedule_function_not_registered :
    "schedule" ∉ envFunctions ∧
    callEnvFunction RenderCapture.default "schedule" "daily_job"
      = .error (.minijinja ("unknown function: schedule")) := by
  exact ⟨by decide, rfl⟩

/-- C10: `few_date_ago(0)` formats the same date as `current_date()` (the
local clock being the explicit `today` parameter, which satisfies the
`NaiveDate` range invariant), and `few_date_ago(n)` errors for every negative
`n`. -/
theorem few_date_ago_boundary (today : NaiveDate) (n : Int) :
    (dateInRange today → few_date_ago today 0 = .ok (current_date today)) ∧
    (n < 0 → few_date_ago today n = .error (.pipelineError ("days must be non-negative"))) := by
  constructor
  · intro h
    obtain ⟨d⟩ := today
    unfold dateInRange at h
    simp only [few_date_ago, checkedSubDays, current_date]
    rw [if_neg (by norm_num : ¬ ((0 : Int) < 0)),
      if_neg (by decide : ¬ (durationMaxDays < (0 : Int)))]
    simp only [sub_zero]
    rw [if_pos h]
  · intro h
    simp only [few_date_ago, if_pos h]

/-- Witness for C10 at `today = 1970-01-01`, `n = -1`. -/
theorem few_date_ago_boundary_witness :
    dateInRange epochDate ∧ (-1 : Int) < 0 ∧
    few_date_ago epochDate 0 = .ok (current_date epochDate) ∧
    few_date_ago epochDate (-1) = .error (.pipelineError ("days must be non-negative")) :=
  ⟨by decide, by decide,
   (few_date_ago_boundary epochDate (-1)).1 (by decide),
   (few_date_ago_boundary epochDate (-1)).2 (by decide)⟩

/-- C5 (amended): for every configuration whose pagination is `PageOnly` or
`Cursor` and whose extra query parameters substitute without error,
`run_fetch` returns `Ok` with a freshly initialised `FetchStats` (all
counters zero) and performs no HTTP page fetch — for every fetcher oracle. -/
theorem run_fetch_pageOnly_cursor_empty (oracle : FetcherOracle) (today : NaiveDate)
    (request : FetchRequest) (query : QueryConfig) (wc : WriteConfig) (opts : FetchOpts)
    (ps : List (String × String))
    (hpag : (∃ p, request.pagination = some (.pageOnly p)) ∨
            (∃ c psz, request.pagination = some (.cursor c psz)))
    (hclean : clean_param today request.extra_params = .ok ps) :
    run_fetch oracle today request query wc opts = (.ok FetchStats.new, 0) := by
  unfold run_fetch
  rw [hclean]
  rcases hpag with ⟨p, hp⟩ | ⟨c, psz, hp⟩ <;> rw [hp]

/-- Witness for C5 at a concrete `PageOnly` request without parameters. -/
theorem run_fetch_pageOnly_cursor_empty_witness :
    clean_param epochDate reqPageOnlyGood.extra_params = .ok [] ∧
    run_fetch dummyOracle epochDate reqPageOnlyGood exQuery exWrite exOpts
      = (.ok FetchStats.new, 0) :=
  ⟨rfl, run_fetch_pageOnly_cursor_empty dummyOracle epochDate reqPageOnlyGood exQuery
    exWrite exOpts [] (.inl ⟨"page", rfl⟩) rfl⟩

/-- C5 counterexample: a `PageOnly` configuration whose query parameter value
holds an unknown template function makes `run_fetch` return an error, not
`Ok` — the parameter substitution runs before the pagination dispatch. -/
theorem run_fetch_pageOnly_counterexample :
    reqPageOnlyBad.pagination = some (.pageOnly "page") ∧
    run_fetch dummyOracle epochDate reqPageOnlyBad exQuery exWrite exOpts
      = (.error (.pipelineError ("Unknown function: bogus()")), 0) := by
  exact ⟨rfl, by decide⟩

/-- C7 (amended): for every fetch request whose pagination is `Default` or
absent, `run_fetch` performs no HTTP page fetch (for every fetcher oracle),
and — provided the extra query parameters substitute without error — returns
the fatal pagination error. -/
theorem run_fetch_default_pagination_error (oracle : FetcherOracle) (today : NaiveDate)
    (request : FetchRequest) (query : QueryConfig) (wc : WriteConfig) (opts : FetchOpts)
    (hpag : request.pagination = some .default ∨ request.pagination = none) :
    (run_fetch oracle today request query wc opts).2 = 0 ∧
    (∀ ps, clean_param today request.extra_params = .ok ps →
      (run_fetch oracle today request query wc opts).1
        = .error (.paginationError ("no supported pagination configured"))) := by
  unfold run_fetch
  cases hc : clean_param today request.extra_params with
  | error e =>
    refine ⟨rfl, fun ps hps => ?_⟩
    exact Except.noConfusion hps
  | ok ps0 =>
    rcases hpag with h | h <;> rw [h] <;> exact ⟨rfl, fun ps _ => rfl⟩

/-- Witness for C7 at a concrete `Default`-pagination request. -/
theorem run_fetch_default_pagination_error_witness :
    (run_fetch dummyOracle epochDate reqDefaultPlain exQuery exWrite exOpts).2 = 0 ∧
    (run_fetch dummyOracle epochDate reqDefaultPlain exQuery exWrite exOpts).1
      = .error (.paginationError ("no supported pagination configured")) :=
  ⟨(run_fetch_default_pagination_error dummyOracle epochDate reqDefaultPlain exQuery
      exWrite exOpts (.inl rfl)).1,
   (run_fetch_default_pagination_error dummyOracle epochDate reqDefaultPlain exQuery
      exWrite exOpts (.inl rfl)).2 [] rfl⟩

/-- C7 counterexample: with `Default` pagination but a query parameter whose
template fails to substitute, `run_fetch` returns the template error, not a
pagination error (the claim as stated promises a pagination error for every
such request). -/
theorem run_fetch_default_counterexample :
    reqDefaultBad.pagination = some .default ∧
    run_fetch dummyOracle epochDate reqDefaultBad exQuery exWrite exOpts
      = (.error (.pipelineError ("Unknown function: nosuch()")), 0) ∧
    resultIsPaginationError
      (run_fetch dummyOracle epochDate reqDefaultBad exQuery exWrite exOpts).1 = false := by
  refine ⟨rfl, by decide, by decide⟩

/-! ### Schema inference: supporting lemmas (claims C1, C2) -/

/-- Lookup succeeds exactly on the listed keys. -/
theorem alookup_isSome_iff_mem (k : String) (m : List (String × FieldInference)) :
    (alookup k m).isSome = true ↔ k ∈ m.map Prod.fst := by
  induction m with
  | nil => simp [alookup]
  | cons p rest ih =>
    by_cases h : p.1 = k
    · simp [alookup, h]
    · simp only [alookup, if_neg h, List.map_cons, List.mem_cons, ih]
      constructor
      · exact fun hm => .inr hm
      · rintro (hm | hm)
        · exact absurd hm.symm h
        · exact hm

/-- A key update (the `entry` map edit) leaves the key listing unchanged. -/
theorem map_fst_update (k : String) (hf : FieldInference → FieldInference)
    (m : List (String × FieldInference)) :
    (m.map (fun p => if p.1 = k then (p.1, hf p.2) else p)).map Prod.fst = m.map Prod.fst := by
  induction m with
  | nil => rfl
  | cons p rest ih =>
    by_cases h : p.1 = k <;> simp [h, ih]

/-- Key listing of one `entry/observe` step: an existing key leaves the keys
unchanged, a new key is appended. -/
theorem map_fst_observePair (acc : List (String × FieldInference)) (k : String) (v : Json) :
    (observePair acc k v).map Prod.fst =
      if k ∈ acc.map Prod.fst then acc.map Prod.fst else acc.map Prod.fst ++ [k] := by
  unfold observePair
  cases hl : alookup k acc with
  | some i =>
    have hm : k ∈ acc.map Prod.fst := (alookup_isSome_iff_mem k acc).1 (by rw [hl]; rfl)
    show (acc.map (fun p => if p.1 = k then (p.1, p.2.observe v) else p)).map Prod.fst = _
    rw [if_pos hm]
    exact map_fst_update k (fun x => x.observe v) acc
  | none =>
    have hm : ¬ k ∈ acc.map Prod.fst := by
      rw [← alookup_isSome_iff_mem, hl]; simp
    show ((acc ++ [(k, FieldInference.new.observe v)]).map Prod.fst) = _
    rw [if_neg hm]; simp

/-- Key listing of one record's processing agrees with the spec-side
first-appearance fold. -/
theorem map_fst_observeRecord (acc : List (String × FieldInference)) (v : Json) :
    (observeRecord acc v).map Prod.fst =
      (match v with
       | .obj o => o.foldl (fun ks p => if p.1 ∈ ks then ks else ks ++ [p.1]) (acc.map Prod.fst)
       | _ => acc.map Prod.fst) := by
  cases v with
  | obj o =>
    show ((o.foldl (fun a p => observePair a p.1 p.2) acc).map Prod.fst) = _
    induction o generalizing acc with
    | nil => rfl
    | cons p o' ih =>
      simp only [List.foldl_cons]
      rw [ih, map_fst_observePair]
  | null => rfl
  | bool _ => rfl
  | numInt _ => rfl
  | numFloat => rfl
  | str _ => rfl
  | arr _ => rfl

/-- Generalised accumulator form of `sampleFields_map_fst`. -/
theorem fold_observeRecord_map_fst (window : List Json)
    (acc : List (String × FieldInference)) :
    (window.foldl observeRecord acc).map Prod.fst =
      window.foldl
        (fun ks v =>
          match v with
          | Json.obj o => o.foldl (fun ks p => if p.1 ∈ ks then ks else ks ++ [p.1]) ks
          | _ => ks)
        (acc.map Prod.fst) := by
  induction window generalizing acc with
  | nil => rfl
  | cons v w ih =>
    simp only [List.foldl_cons]
    rw [ih, map_fst_observeRecord]

/-- The key listing of the sampled map is exactly the first-appearance order
of the field names. -/
theorem sampleFields_map_fst (window : List Json) :
    (sampleFields window).map Prod.fst = firstAppearanceKeys window := by
  unfold sampleFields firstAppearanceKeys
  exact fold_observeRecord_map_fst window []

/-- When every key of `order` is present in the map, the produced field names
are exactly `order`. -/
theorem filterMap_fields_names (order : List String) (m : List (String × FieldInference))
    (h : ∀ k ∈ order, (alookup k m).isSome = true) :
    (order.filterMap (fun k =>
      (alookup k m).map (fun inf => Field.mk k inf.to_data_type inf.is_nullable))).map
        Field.name = order := by
  induction order with
  | nil => rfl
  | cons k rest ih =>
    have hk := h k (List.mem_cons_self k rest)
    cases hl : alookup k m with
    | none => rw [hl] at hk; cases hk
    | some inf =>
      rw [List.filterMap_cons, hl]
      show (Field.mk k inf.to_data_type inf.is_nullable :: _).map Field.name = _
      rw [List.map_cons, ih (fun k' hk' => h k' (List.mem_cons_of_mem k hk'))]

/-- The nullability recorded for key `k` in a field map (false when absent). -/
def nullOf (m : List (String × FieldInference)) (k : String) : Bool :=
  match alookup k m with
  | some i => i.is_nullable
  | none => false

/-- Observing a value sets nullability exactly on `null`. -/
theorem observe_is_nullable (i : FieldInference) (v : Json) :
    (i.observe v).is_nullable = (i.is_nullable || v.isNull) := by
  cases v <;> simp [FieldInference.observe, Json.isNull]

/-- Lookup after a key update. -/
theorem alookup_update (k k' : String) (hf : FieldInference → FieldInference)
    (m : List (String × FieldInference)) :
    alookup k (m.map (fun p => if p.1 = k' then (p.1, hf p.2) else p)) =
      (alookup k m).map (fun i => if k' = k then hf i else i) := by
  induction m with
  | nil => rfl
  | cons p rest ih =>
    simp only [List.map_cons]
    by_cases h1 : p.1 = k' <;> by_cases h2 : p.1 = k
    · have hk : k' = k := by rw [← h1, h2]
      simp [alookup, h1, h2, hk, ih]
    · have hk : ¬ (k' = k) := fun he => h2 (h1.trans he)
      have hk2 : ¬ (k = k') := fun he => hk he.symm
      simp [alookup, h1, h2, hk, hk2, ih]
    · have hk : ¬ (k' = k) := fun he => h1 (h2.trans he.symm)
      have hk2 : ¬ (k = k') := fun he => hk he.symm
      simp [alookup, h1, h2, hk, hk2, ih]
    · simp [alookup, h1, h2, ih]

/-- Lookup after appending a fresh binding. -/
theorem alookup_append_singleton (k k' : String) (i : FieldInference)
    (m : List (String × FieldInference)) :
    alookup k (m ++ [(k', i)]) =
      (match alookup k m with
       | some j => some j
       | none => if k' = k then some i else none) := by
  induction m with
  | nil => simp [alookup]
  | cons p rest ih =>
    by_cases h : p.1 = k
    · simp [alookup, h]
    · have hr : alookup k (p :: rest) = alookup k rest := by simp [alookup, h]
      rw [List.cons_append, hr]
      show (if p.1 = k then some p.2 else alookup k (rest ++ [(k', i)])) = _
      rw [if_neg h]
      exact ih

/-- Nullability bookkeeping of one `entry/observe` step. -/
theorem nullOf_observePair (acc : List (String × FieldInference)) (k' : String) (v : Json)
    (k : String) :
    nullOf (observePair acc k' v) k = (nullOf acc k || (decide (k' = k) && v.isNull)) := by
  unfold observePair
  cases hl : alookup k' acc with
  | some i =>
    unfold nullOf
    rw [alookup_update k k' (fun j => j.observe v) acc]
    cases hlk : alookup k acc with
    | none =>
      have hkk : ¬ k' = k := by
        intro he
        rw [he] at hl
        rw [hl] at hlk
        cases hlk
      simp [hkk]
    | some j =>
      by_cases hkk : k' = k
      · simp [hkk, observe_is_nullable]
      · simp [hkk]
  | none =>
    unfold nullOf
    rw [alookup_append_singleton k k' (FieldInference.new.observe v) acc]
    cases hlk : alookup k acc with
    | some j =>
      have hkk : ¬ k' = k := by
        intro he
        rw [he] at hl
        rw [hl] at hlk
        cases hlk
      simp [hkk]
    | none =>
      by_cases hkk : k' = k
      · simp [hkk, observe_is_nullable, FieldInference.new]
      · simp [hkk]

/-- Nullability bookkeeping of one record. -/
theorem nullOf_observeRecord (acc : List (String × FieldInference)) (v : Json) (k : String) :
    nullOf (observeRecord acc v) k =
      (nullOf acc k ||
        (match v with
         | .obj o => o.any (fun p => decide (p.1 = k) && p.2.isNull)
         | _ => false)) := by
  cases v with
  | obj o =>
    show nullOf (o.foldl (fun a p => observePair a p.1 p.2) acc) k = _
    induction o generalizing acc with
    | nil => simp
    | cons p o' ih =>
      simp only [List.foldl_cons, List.any_cons]
      rw [ih, nullOf_observePair, Bool.or_assoc]
  | null => simp [observeRecord]
  | bool _ => simp [observeRecord]
  | numInt _ => simp [observeRecord]
  | numFloat => simp [observeRecord]
  | str _ => simp [observeRecord]
  | arr _ => simp [observeRecord]

/-- Nullability recorded over the whole sample window: a field is flagged
exactly when some sampled object record holds `null` under it. -/
theorem nullOf_sampleFields (window : List Json) (k : String) :
    nullOf (sampleFields window) k = observedNullInWindow window k := by
  unfold sampleFields observedNullInWindow
  generalize hacc : ([] : List (String × FieldInference)) = acc
  have hacc2 : nullOf acc k = false := by rw [← hacc]; rfl
  have : nullOf (window.foldl observeRecord acc) k =
      (nullOf acc k || window.any (fun v =>
        match v with
        | .obj o => o.any (fun p => decide (p.1 = k) && p.2.isNull)
        | _ => false)) := by
    clear hacc hacc2
    induction window generalizing acc with
    | nil => simp
    | cons v w ih =>
      simp only [List.foldl_cons, List.any_cons]
      rw [ih, nullOf_observeRecord, Bool.or_assoc]
  rw [this, hacc2, Bool.false_or]

/-- Unpacking of a successful `InferResult`. -/
theorem inferResult_elim (items : List (Except Err Json)) (window : List Json)
    (fields : List Field) (hw : sampleWindow items = .ok window)
    (h : InferResult items fields) :
    ∃ order : List String, order.Perm ((sampleFields window).map Prod.fst) ∧
      fields = order.filterMap (fun k =>
        (alookup k (sampleFields window)).map
          (fun inf => Field.mk k inf.to_data_type inf.is_nullable)) := by
  obtain ⟨order, window', hw', hperm, hok⟩ := h
  rw [hw] at hw'
  cases hw'
  refine ⟨order, hperm, ?_⟩
  unfold inferSchemaFields at hok
  rw [hw] at hok
  by_cases he : (sampleFields window).isEmpty
  · simp only [he, if_true] at hok
    cases hok
  · simp only [he, if_false] at hok
    exact (Except.ok.injEq _ _ ▸ hok).symm

/-- C1 (amended): the schema produced by `infer_schema_streaming` contains
exactly the field names appearing in the sampled object records — its name
list is a permutation of the first-appearance order — but the list order
itself is the `HashMap` iteration order, which is unspecified. -/
theorem inferSchema_names_perm_firstAppearance (items : List (Except Err Json))
    (window : List Json) (fields : List Field)
    (hw : sampleWindow items = .ok window) (h : InferResult items fields) :
    (fields.map Field.name).Perm (firstAppearanceKeys window) := by
  obtain ⟨order, hperm, hfields⟩ := inferResult_elim items window fields hw h
  have htot : ∀ k ∈ order, (alookup k (sampleFields window)).isSome = true := by
    intro k hk
    rw [alookup_isSome_iff_mem]
    exact hperm.mem_iff.1 hk
  rw [hfields, filterMap_fields_names order (sampleFields window) htot,
    ← sampleFields_map_fst]
  exact hperm

/-- Witness for C1 on a concrete one-record stream. -/
theorem inferSchema_names_perm_firstAppearance_witness :
    sampleWindow exStreamC1 = .ok [.obj [("a", .numInt 1), ("b", .numInt 2)]] ∧
    InferResult exStreamC1 exFieldsC1 ∧
    (exFieldsC1.map Field.name).Perm
      (firstAppearanceKeys [.obj [("a", .numInt 1), ("b", .numInt 2)]]) := by
  refine ⟨rfl, ⟨["b", "a"], _, rfl, by decide, by decide⟩, ?_⟩
  exact inferSchema_names_perm_firstAppearance exStreamC1
    [.obj [("a", .numInt 1), ("b", .numInt 2)]] exFieldsC1 rfl
    ⟨["b", "a"], _, rfl, by decide, by decide⟩

/-- C1 counterexample: on a stream whose single record has keys `a` then `b`,
an admissible `HashMap` iteration order yields the schema `[b, a]`, which is
not the first-appearance order `[a, b]`. -/
theorem inferSchema_order_counterexample :
    InferResult exStreamC1 exFieldsC1 ∧
    exFieldsC1.map Field.name ≠
      firstAppearanceKeys [.obj [("a", .numInt 1), ("b", .numInt 2)]] := by
  refine ⟨⟨["b", "a"], _, rfl, by decide, by decide⟩, by decide⟩

/-- C2 (amended): a field of the schema returned by `infer_schema_streaming`
is marked nullable if and only if it was observed with a `null` value at least
once in the sample window; a field merely missing from some sampled record is
NOT marked nullable. -/
theorem inferSchema_nullable_iff_observed_null (items : List (Except Err Json))
    (window : List Json) (fields : List Field) (f : Field)
    (hw : sampleWindow items = .ok window) (h : InferResult items fields)
    (hf : f ∈ fields) :
    f.nullable = true ↔ observedNullInWindow window f.name = true := by
  obtain ⟨order, hperm, hfields⟩ := inferResult_elim items window fields hw h
  rw [hfields] at hf
  obtain ⟨k, hk, hfk⟩ := List.mem_filterMap.1 hf
  cases hl : alookup k (sampleFields window) with
  | none => rw [hl] at hfk; cases hfk
  | some inf =>
    rw [hl] at hfk
    have hfk2 : Field.mk k inf.to_data_type inf.is_nullable = f := Option.some.inj hfk
    have hnull : inf.is_nullable = observedNullInWindow window k := by
      have := nullOf_sampleFields window k
      unfold nullOf at this
      rw [hl] at this
      exact this
    rw [← hfk2]
    show inf.is_nullable = true ↔ observedNullInWindow window k = true
    rw [hnull]

/-- Witness for C2 on a concrete stream containing a `null` observation. -/
theorem inferSchema_nullable_iff_observed_null_witness :
    sampleWindow [Except.ok (Json.obj [("a", .null)])] = .ok [Json.obj [("a", .null)]] ∧
    InferResult [Except.ok (Json.obj [("a", .null)])] [⟨"a", .utf8, true⟩] ∧
    ((⟨"a", .utf8, true⟩ : Field).nullable = true ↔
      observedNullInWindow [Json.obj [("a", .null)]] "a" = true) := by
  refine ⟨rfl, ⟨["a"], _, rfl, by decide, by decide⟩, ?_⟩
  exact inferSchema_nullable_iff_observed_null [Except.ok (Json.obj [("a", .null)])]
    [Json.obj [("a", .null)]] [⟨"a", .utf8, true⟩] ⟨"a", .utf8, true⟩ rfl
    ⟨["a"], _, rfl, by decide, by decide⟩ (by decide)

/-- C2 counterexample: field `a` is missing from the second sampled record,
yet the inferred schema does not mark it nullable — refuting "nullable iff
missing or observed null". -/
theorem inferSchema_nullable_counterexample :
    InferResult exStreamC2 exFieldsC2 ∧
    (Field.mk "a" .int64 false) ∈ exFieldsC2 ∧
    missingInWindow [Json.obj [("a", .numInt 1)], Json.obj [("b", .numInt 2)]] "a" = true := by
  refine ⟨⟨["a", "b"], _, rfl, by decide, by decide⟩, by decide, by decide⟩

/-! ### SQL rewrite: `str::replace` agrees with occurrence-by-occurrence
substitution (claim C6) -/

/-- No occurrence of a non-empty pattern in the empty string. -/
theorem firstOccurrence_nil (p : Char) (ps : List Char) :
    firstOccurrence [] (p :: ps) = none := rfl

/-- Recursive characterisation of the first-occurrence search. -/
theorem firstOccurrence_cons (c : Char) (cs pat : List Char) :
    firstOccurrence (c :: cs) pat =
      if pat.isPrefixOf (c :: cs) then some 0
      else (firstOccurrence cs pat).map (· + 1) := by
  unfold firstOccurrence
  show (List.range (cs.length + 1 + 1)).find? (fun i => pat.isPrefixOf ((c :: cs).drop i)) = _
  rw [List.range_succ_eq_map]
  by_cases hp : pat.isPrefixOf (c :: cs)
  · rw [List.find?_cons_of_pos _ (by exact hp), if_pos hp]
  · rw [List.find?_cons_of_neg _ (by simpa using hp), if_neg hp, List.find?_map]
    rfl

/-- Fuel irrelevance for the `str::replace` core. -/
theorem replaceNEF_fuel_irrel (p : Char) (ps rep : List Char) (f1 : Nat) :
    ∀ (s : List Char) (f2 : Nat), s.length < f1 → s.length < f2 →
      replaceNEF p ps rep f1 s = replaceNEF p ps rep f2 s := by
  induction f1 with
  | zero => intro s f2 h1 _; exact absurd h1 (Nat.not_lt_zero _)
  | succ f1' ih =>
    intro s f2 h1 h2
    cases f2 with
    | zero => exact absurd h2 (Nat.not_lt_zero _)
    | succ f2' =>
      cases s with
      | nil => rfl
      | cons c cs =>
        show (if (p :: ps).isPrefixOf (c :: cs) then _ else _) =
          (if (p :: ps).isPrefixOf (c :: cs) then _ else _)
        by_cases hp : (p :: ps).isPrefixOf (c :: cs)
        · rw [if_pos hp, if_pos hp]
          have h1' : cs.length + 1 < f1' + 1 := by simpa using h1
          have h2' : cs.length + 1 < f2' + 1 := by simpa using h2
          have hlen : (cs.drop ps.length).length < f1' := by
            rw [List.length_drop]; omega
          have hlen2 : (cs.drop ps.length).length < f2' := by
            rw [List.length_drop]; omega
          rw [ih (cs.drop ps.length) f2' hlen hlen2]
        · rw [if_neg hp, if_neg hp]
          have h1' : cs.length + 1 < f1' + 1 := by simpa using h1
          have h2' : cs.length + 1 < f2' + 1 := by simpa using h2
          rw [ih cs f2' (by omega) (by omega)]

/-- When the pattern does not occur, the `str::replace` core is the
identity (for any amount of fuel). -/
theorem replaceNEF_of_no_occurrence (p : Char) (ps rep : List Char) (f : Nat) :
    ∀ s : List Char, firstOccurrence s (p :: ps) = none →
      replaceNEF p ps rep f s = s := by
  induction f with
  | zero => intro s _; rfl
  | succ f' ih =>
    intro s hno
    cases s with
    | nil => rfl
    | cons c cs =>
      rw [firstOccurrence_cons] at hno
      by_cases hp : (p :: ps).isPrefixOf (c :: cs)
      · rw [if_pos hp] at hno; cases hno
      · rw [if_neg hp] at hno
        have hcs : firstOccurrence cs (p :: ps) = none := by
          cases hfo : firstOccurrence cs (p :: ps) with
          | none => rfl
          | some i => rw [hfo] at hno; cases hno
        show (if (p :: ps).isPrefixOf (c :: cs) then _ else _) = _
        rw [if_neg hp, ih cs hcs]

/-- Fuel irrelevance for the spec-side occurrence-by-occurrence
substitution. -/
theorem replaceOccFuel_fuel_irrel (p : Char) (ps rep : List Char) (f1 : Nat) :
    ∀ (s : List Char) (f2 : Nat), s.length < f1 → s.length < f2 →
      replaceOccFuel (p :: ps) rep f1 s = replaceOccFuel (p :: ps) rep f2 s := by
  induction f1 with
  | zero => intro s f2 h1 _; exact absurd h1 (Nat.not_lt_zero _)
  | succ f1' ih =>
    intro s f2 h1 h2
    cases f2 with
    | zero => exact absurd h2 (Nat.not_lt_zero _)
    | succ f2' =>
      show (match firstOccurrence s (p :: ps) with
            | none => s
            | some i => _) =
           (match firstOccurrence s (p :: ps) with
            | none => s
            | some i => _)
      cases hfo : firstOccurrence s (p :: ps) with
      | none => rfl
      | some i =>
        have hs : s ≠ [] := by
          intro he
          rw [he, firstOccurrence_nil] at hfo
          cases hfo
        have hs1 : 1 ≤ s.length := by
          cases s with
          | nil => exact absurd rfl hs
          | cons a as => simp
        have hd1 : (s.drop (i + (p :: ps).length)).length < f1' := by
          rw [List.length_drop]
          simp only [List.length_cons]
          omega
        have hd2 : (s.drop (i + (p :: ps).length)).length < f2' := by
          rw [List.length_drop]
          simp only [List.length_cons]
          omega
        show s.take i ++ rep ++ replaceOccFuel (p :: ps) rep f1' (s.drop (i + (p :: ps).length)) =
             s.take i ++ rep ++ replaceOccFuel (p :: ps) rep f2' (s.drop (i + (p :: ps).length))
        rw [ih (s.drop (i + (p :: ps).length)) f2' hd1 hd2]

/-- The `str::replace` core computes exactly the spec-side
occurrence-by-occurrence substitution. -/
theorem replaceNEF_eq_replaceOccFuel (p : Char) (ps rep : List Char) (n : Nat) :
    ∀ (s : List Char) (f1 f2 : Nat), s.length ≤ n → s.length < f1 → s.length < f2 →
      replaceNEF p ps rep f1 s = replaceOccFuel (p :: ps) rep f2 s := by
  induction n with
  | zero =>
    intro s f1 f2 hn h1 h2
    have hs : s = [] := List.length_eq_zero.1 (Nat.le_zero.1 hn)
    subst hs
    cases f1 with
    | zero => exact absurd h1 (Nat.not_lt_zero _)
    | succ f1' =>
      cases f2 with
      | zero => exact absurd h2 (Nat.not_lt_zero _)
      | succ f2' => rfl
  | succ n' ih =>
    intro s f1 f2 hn h1 h2
    cases s with
    | nil =>
      cases f1 with
      | zero => exact absurd h1 (Nat.not_lt_zero _)
      | succ f1' =>
        cases f2 with
        | zero => exact absurd h2 (Nat.not_lt_zero _)
        | succ f2' => rfl
    | cons c cs =>
      cases f1 with
      | zero => exact absurd h1 (Nat.not_lt_zero _)
      | succ f1' =>
      cases f2 with
      | zero => exact absurd h2 (Nat.not_lt_zero _)
      | succ f2' =>
      have hlcs : cs.length ≤ n' := by
        simp only [List.length_cons] at hn
        omega
      have hcf1 : cs.length < f1' := by
        simp only [List.length_cons] at h1
        omega
      have hcf2 : cs.length < f2' := by
        simp only [List.length_cons] at h2
        omega
      show (if (p :: ps).isPrefixOf (c :: cs) then _ else _) = _
      by_cases hp : (p :: ps).isPrefixOf (c :: cs)
      · rw [if_pos hp]
        show _ = (match firstOccurrence (c :: cs) (p :: ps) with
                  | none => c :: cs
                  | some i => _)
        rw [firstOccurrence_cons, if_pos hp]
        show rep ++ replaceNEF p ps rep f1' (cs.drop ps.length) =
          (c :: cs).take 0 ++ rep ++
            replaceOccFuel (p :: ps) rep f2' ((c :: cs).drop (0 + (p :: ps).length))
        have hdrop : ((c :: cs).drop (0 + (p :: ps).length)) = cs.drop ps.length := by
          simp [List.length_cons, Nat.zero_add]
        rw [hdrop]
        have hdl : (cs.drop ps.length).length ≤ n' := by
          rw [List.length_drop]; omega
        have hdf1 : (cs.drop ps.length).length < f1' := by
          rw [List.length_drop]; omega
        have hdf2 : (cs.drop ps.length).length < f2' := by
          rw [List.length_drop]; omega
        rw [ih (cs.drop ps.length) f1' f2' hdl hdf1 hdf2]
        rfl
      · rw [if_neg hp]
        show c :: replaceNEF p ps rep f1' cs =
          (match firstOccurrence (c :: cs) (p :: ps) with
           | none => c :: cs
           | some i => _)
        rw [firstOccurrence_cons, if_neg hp]
        cases hfo : firstOccurrence cs (p :: ps) with
        | none =>
          rw [replaceNEF_of_no_occurrence p ps rep f1' cs hfo]
          rfl
        | some i =>
          show c :: replaceNEF p ps rep f1' cs =
            (c :: cs).take (i + 1) ++ rep ++
              replaceOccFuel (p :: ps) rep f2' ((c :: cs).drop (i + 1 + (p :: ps).length))
          have hr : replaceNEF p ps rep f1' cs = replaceOccFuel (p :: ps) rep f2' cs :=
            ih cs f1' f2' hlcs hcf1 hcf2
          have hstep : replaceOccFuel (p :: ps) rep f2' cs =
              cs.take i ++ rep ++
                replaceOccFuel (p :: ps) rep f2' (cs.drop (i + (p :: ps).length)) := by
            cases f2' with
            | zero => exact absurd hcf2 (Nat.not_lt_zero _)
            | succ f2'' =>
              show (match firstOccurrence cs (p :: ps) with
                    | none => cs
                    | some j => _) = _
              rw [hfo]
              have hfi : (cs.drop (i + (p :: ps).length)).length < f2'' := by
                rw [List.length_drop]
                simp only [List.length_cons]
                have hcs0 : cs ≠ [] := by
                  intro he
                  rw [he, firstOccurrence_nil] at hfo
                  cases hfo
                have : 1 ≤ cs.length := by
                  cases cs with
                  | nil => exact absurd rfl hcs0
                  | cons a as => simp
                omega
              have hfi2 : (cs.drop (i + (p :: ps).length)).length < f2'' + 1 := by omega
              rw [replaceOccFuel_fuel_irrel p ps rep (f2'' + 1)
                (cs.drop (i + (p :: ps).length)) f2'' hfi2 hfi]
          rw [hr, hstep]
          have ht : (c :: cs).take (i + 1) = c :: cs.take i := rfl
          have hd : (c :: cs).drop (i + 1 + (p :: ps).length) =
              cs.drop (i + (p :: ps).length) := by
            have he : i + 1 + (p :: ps).length = i + (p :: ps).length + 1 := by omega
            rw [he]
            rfl
          rw [ht, hd]
          simp [List.append_assoc]

/-- Rust `str::replace` with a non-empty pattern is exactly the spec-side
occurrence-by-occurrence substitution. -/
theorem rustReplace_eq_specSubstitute (s pat rep : List Char) (hp : pat ≠ []) :
    rustReplace s pat rep = specSubstituteOccurrences s pat rep := by
  cases pat with
  | nil => exact absurd rfl hp
  | cons p ps =>
    unfold rustReplace specSubstituteOccurrences
    rw [if_neg (by simp : ¬ ((p :: ps).isEmpty = true))]
    exact replaceNEF_eq_replaceOccFuel p ps rep s.length s (s.length + 1) (s.length + 1)
      (Nat.le_refl _) (Nat.lt_succ_self _) (Nat.lt_succ_self _)

/-- C6: in `execute_pipeline_job`, the SQL text executed is the rendered SQL
template with every occurrence of the (non-empty) `source_name` substring
replaced by the `dest_table` identifier, as a literal occurrence-by-occurrence
textual substitution. -/
theorem execute_pipeline_sql_rewrites_every_occurrence
    (sql_template source_name : String) (source : Source) (dest : String)
    (hsn : source_name ≠ "")
    (ht : source.table_destination_name = some dest) :
    execute_pipeline_sql sql_template source_name source =
      .ok (String.mk
        (specSubstituteOccurrences sql_template.data source_name.data dest.data)) := by
  unfold execute_pipeline_sql extract_destination_table
  rw [ht]
  have hd : source_name.data ≠ [] := by
    intro he
    apply hsn
    cases source_name with
    | mk l => cases he; rfl
  show Except.ok (String.mk (rustReplace sql_template.data source_name.data dest.data)) = _
  rw [rustReplace_eq_specSubstitute sql_template.data source_name.data dest.data hd]

/-- Witness for C6: the rewrite is evaluated on a concrete template whose
source name occurs twice, once as a substring of a longer identifier. -/
theorem execute_pipeline_sql_rewrites_every_occurrence_witness :
    ("api_users" : String) ≠ "" ∧
    exSource.table_destination_name = some "users_dest" ∧
    execute_pipeline_sql "select * from api_users join api_users_aux" "api_users" exSource
      = .ok (String.mk (specSubstituteOccurrences
          "select * from api_users join api_users_aux".data "api_users".data
          "users_dest".data)) ∧
    execute_pipeline_sql "select * from api_users join api_users_aux" "api_users" exSource
      = .ok "select * from users_dest join users_dest_aux" := by
  refine ⟨by decide, rfl, ?_, by decide⟩
  exact execute_pipeline_sql_rewrites_every_occurrence
    "select * from api_users join api_users_aux" "api_users" exSource "users_dest"
    (by decide) rfl

/-! ### Template idempotence (claim C9): scanner lemmas -/

/-- Take-while across an append, stopping at a falsifying head of the second
part. -/
theorem takeWhile_append_stop (p : Char → Bool) (t : List Char) (c : Char)
    (u : List Char) (hc : p c = false) :
    (t ++ c :: u).takeWhile p = t.takeWhile p := by
  induction t with
  | nil => simp [List.takeWhile, hc]
  | cons a t' ih =>
    cases ha : p a with
    | true => simp [List.takeWhile, ha, ih]
    | false => simp [List.takeWhile, ha]

/-- Drop-while across an append, stopping at a falsifying head of the second
part. -/
theorem dropWhile_append_stop (p : Char → Bool) (t : List Char) (c : Char)
    (u : List Char) (hc : p c = false) :
    (t ++ c :: u).dropWhile p = t.dropWhile p ++ c :: u := by
  induction t with
  | nil => simp [List.dropWhile, hc]
  | cons a t' ih =>
    cases ha : p a with
    | true => simp [List.dropWhile, ha, ih]
    | false => simp [List.dropWhile, ha]

/-- Take-while of an append whose first part satisfies the predicate
throughout and whose second part starts with a falsifying element. -/
theorem takeWhile_append_exact (p : Char → Bool) (t : List Char) (c : Char)
    (u : List Char) (ht : ∀ a ∈ t, p a = true) (hc : p c = false) :
    (t ++ c :: u).takeWhile p = t := by
  induction t with
  | nil => simp [List.takeWhile, hc]
  | cons a t' ih =>
    have ha : p a = true := ht a (List.mem_cons_self a t')
    simp only [List.cons_append, List.takeWhile_cons, ha]
    rw [ih (fun b hb => ht b (List.mem_cons_of_mem a hb))]
    simp

/-- Drop-while counterpart of `takeWhile_append_exact`. -/
theorem dropWhile_append_exact (p : Char → Bool) (t : List Char) (c : Char)
    (u : List Char) (ht : ∀ a ∈ t, p a = true) (hc : p c = false) :
    (t ++ c :: u).dropWhile p = c :: u := by
  induction t with
  | nil => simp [List.dropWhile, hc]
  | cons a t' ih =>
    have ha : p a = true := ht a (List.mem_cons_self a t')
    simp only [List.cons_append, List.dropWhile_cons, ha]
    exact ih (fun b hb => ht b (List.mem_cons_of_mem a hb))

/-- Members survive `dropWhile`. -/
theorem mem_of_mem_dropWhile (p : Char → Bool) (t : List Char) (c : Char)
    (h : c ∈ t.dropWhile p) : c ∈ t :=
  (List.dropWhile_sublist p).subset h

/-- Members survive `takeWhile`. -/
theorem mem_of_mem_takeWhile (p : Char → Bool) (t : List Char) (c : Char)
    (h : c ∈ t.takeWhile p) : c ∈ t :=
  (List.takeWhile_sublist p).subset h

/-- A match can only start at an opening brace. -/
theorem matchAt_none_of_head_ne (c : Char) (cs : List Char) (hc : c ≠ '{') :
    matchAt (c :: cs) = none := by
  cases cs with
  | nil => rfl
  | cons c2 r0 =>
    show (if c = '{' ∧ c2 = '{' then _ else none) = none
    rw [if_neg (fun h => hc h.1)]

/-- Scanning a text without opening braces finds no match. -/
theorem findMatch_noLB (t : List Char) (ht : noLB t) : findMatch t = none := by
  induction t with
  | nil => rfl
  | cons c cs ih =>
    show (match matchAt (c :: cs) with
          | some (cap, rem) => some ([], cap, rem)
          | none =>
            match findMatch cs with
            | some (pre, cap, rem) => some (c :: pre, cap, rem)
            | none => none) = none
    rw [matchAt_none_of_head_ne c cs (ht c (List.mem_cons_self c cs)),
      ih (fun a ha => ht a (List.mem_cons_of_mem c ha))]

/-- Scanning skips over a prefix without opening braces. -/
theorem findMatch_append_noLB (t : List Char) (s : List Char) (ht : noLB t) :
    findMatch (t ++ s) =
      (match findMatch s with
       | some (pre, cap, rem) => some (t ++ pre, cap, rem)
       | none => none) := by
  induction t with
  | nil =>
    cases hfs : findMatch s with
    | none => simp [hfs]
    | some x => simp [hfs]
  | cons c t' ih =>
    show (match matchAt (c :: (t' ++ s)) with
          | some (cap, rem) => some ([], cap, rem)
          | none =>
            match findMatch (t' ++ s) with
            | some (pre, cap, rem) => some (c :: pre, cap, rem)
            | none => none) = _
    rw [matchAt_none_of_head_ne c (t' ++ s) (ht c (List.mem_cons_self c t')),
      ih (fun a ha => ht a (List.mem_cons_of_mem c ha))]
    cases hfs : findMatch s with
    | none => rfl
    | some x => rfl

/-- The decisive scanning lemma: at the opening of a flat `{{ body }}` group
with a brace-free interior, the regex matches exactly when the interior has
the call shape, consuming exactly through the group's closer; the text after
the group is untouched. -/
theorem matchAt_group (body rest : List Char) (hb : braceFree body) :
    matchAt ('{' :: '{' :: (body ++ '}' :: '}' :: rest)) =
      (match bodyCall body with
       | some cap => some (cap, rest)
       | none => none) := by
  show (if '{' = '{' ∧ '{' = '{' then
          match takeIdent ((body ++ '}' :: '}' :: rest).dropWhile isWs) with
          | none => none
          | some (ident, r2) =>
            match r2 with
            | d0 :: r3 =>
              if d0 = '(' then
                match stripArgs (r3.takeWhile (fun c => !(c = '}' : Bool))) with
                | none => none
                | some args =>
                  match r3.dropWhile (fun c => !(c = '}' : Bool)) with
                  | d1 :: d2 :: r5 =>
                    if d1 = '}' ∧ d2 = '}' then some (ident ++ '(' :: (args ++ [')']), r5)
                    else none
                  | _ => none
              else none
            | [] => none
        else none) = _
  rw [if_pos ⟨rfl, rfl⟩,
    dropWhile_append_stop isWs body '}' ('}' :: rest) (by decide)]
  unfold bodyCall
  cases hb1 : body.dropWhile isWs with
  | nil => rfl
  | cons c cs1 =>
    have hcs1 : ∀ a ∈ cs1, a ∈ body := fun a ha => by
      have h2 : a ∈ body.dropWhile isWs := by rw [hb1]; exact List.mem_cons_of_mem c ha
      exact mem_of_mem_dropWhile isWs body a h2
    show (match takeIdent (c :: (cs1 ++ '}' :: '}' :: rest)) with
          | none => none
          | some (ident, r2) =>
            match r2 with
            | d0 :: r3 =>
              if d0 = '(' then
                match stripArgs (r3.takeWhile (fun c => !(c = '}' : Bool))) with
                | none => none
                | some args =>
                  match r3.dropWhile (fun c => !(c = '}' : Bool)) with
                  | d1 :: d2 :: r5 =>
                    if d1 = '}' ∧ d2 = '}' then some (ident ++ '(' :: (args ++ [')']), r5)
                    else none
                  | _ => none
              else none
            | [] => none) = _
    have hti1 : takeIdent (c :: (cs1 ++ '}' :: '}' :: rest)) =
        if isIdentStart c then
          some (c :: (cs1 ++ '}' :: '}' :: rest).takeWhile isIdentChar,
            (cs1 ++ '}' :: '}' :: rest).dropWhile isIdentChar)
        else none := rfl
    have hti2 : takeIdent (c :: cs1) =
        if isIdentStart c then
          some (c :: cs1.takeWhile isIdentChar, cs1.dropWhile isIdentChar)
        else none := rfl
    rw [hti1, hti2]
    by_cases hid : isIdentStart c
    case neg => rw [if_neg hid, if_neg hid]
    case pos =>
      rw [if_pos hid, if_pos hid,
        takeWhile_append_stop isIdentChar cs1 '}' ('}' :: rest) (by decide),
        dropWhile_append_stop isIdentChar cs1 '}' ('}' :: rest) (by decide)]
      cases hb2 : cs1.dropWhile isIdentChar with
      | nil => rfl
      | cons d ds =>
        have hds : ∀ a ∈ ds, a ∈ body := fun a ha => by
          have h1 : a ∈ cs1.dropWhile isIdentChar := by
            rw [hb2]; exact List.mem_cons_of_mem d ha
          exact hcs1 a (mem_of_mem_dropWhile isIdentChar cs1 a h1)
        show (if d = '(' then
                match stripArgs ((ds ++ '}' :: '}' :: rest).takeWhile
                    (fun c => !(c = '}' : Bool))) with
                | none => none
                | some args =>
                  match (ds ++ '}' :: '}' :: rest).dropWhile (fun c => !(c = '}' : Bool)) with
                  | d1 :: d2 :: r5 =>
                    if d1 = '}' ∧ d2 = '}' then
                      some ((c :: cs1.takeWhile isIdentChar) ++ '(' :: (args ++ [')']), r5)
                    else none
                  | _ => none
              else none) =
          (match (if d = '(' then
                    match stripArgs ds with
                    | none => none
                    | some args =>
                      some ((c :: cs1.takeWhile isIdentChar) ++ '(' :: (args ++ [')']))
                  else none) with
           | some cap => some (cap, rest)
           | none => none)
        by_cases hd : d = '('
        case neg =>
          rw [if_neg hd, if_neg hd]
        case pos =>
          have hnb : ∀ a ∈ ds, (fun c => !(c = '}' : Bool)) a = true := fun a ha => by
            have h3 := (hb a (hds a ha)).2
            simp [h3]
          rw [if_pos hd, if_pos hd,
            takeWhile_append_exact _ ds '}' ('}' :: rest) hnb (by simp),
            dropWhile_append_exact _ ds '}' ('}' :: rest) hnb (by simp)]
          cases hsa : stripArgs ds with
          | none => rfl
          | some args => rfl

/-- A match also needs an opening brace in second position. -/
theorem matchAt_two_of_second_ne (c1 c2 : Char) (r : List Char) (hc : c2 ≠ '{') :
    matchAt (c1 :: c2 :: r) = none := by
  show (if c1 = '{' ∧ c2 = '{' then _ else none) = none
  rw [if_neg (fun h => hc h.2)]

/-- Scanning a flat group: a call-shaped interior matches at the opener with
the text after the group untouched; otherwise scanning continues after the
group. -/
theorem findMatch_group (body rest : List Char) (hb : braceFree body) :
    findMatch ('{' :: '{' :: (body ++ '}' :: '}' :: rest)) =
      (match bodyCall body with
       | some cap => some ([], cap, rest)
       | none =>
         match findMatch rest with
         | some (pre, cap, rem) =>
           some ('{' :: '{' :: (body ++ '}' :: '}' :: pre), cap, rem)
         | none => none) := by
  show (match matchAt ('{' :: '{' :: (body ++ '}' :: '}' :: rest)) with
        | some (cap, rem) => some ([], cap, rem)
        | none =>
          match findMatch ('{' :: (body ++ '}' :: '}' :: rest)) with
          | some (pre, cap, rem) => some ('{' :: pre, cap, rem)
          | none => none) = _
  rw [matchAt_group body rest hb]
  cases hbc : bodyCall body with
  | some cap => rfl
  | none =>
    have hm1 : matchAt ('{' :: (body ++ '}' :: '}' :: rest)) = none := by
      cases hbody : body with
      | nil =>
        exact matchAt_two_of_second_ne '{' '}' ('}' :: rest) (by decide)
      | cons b body' =>
        exact matchAt_two_of_second_ne '{' b (body' ++ '}' :: '}' :: rest)
          (hb b (by rw [hbody]; exact List.mem_cons_self b body')).1
    have h2 : findMatch ('{' :: (body ++ '}' :: '}' :: rest)) =
        (match findMatch (body ++ '}' :: '}' :: rest) with
         | some (pre, cap, rem) => some ('{' :: pre, cap, rem)
         | none => none) := by
      show (match matchAt ('{' :: (body ++ '}' :: '}' :: rest)) with
            | some (cap, rem) => some ([], cap, rem)
            | none =>
              match findMatch (body ++ '}' :: '}' :: rest) with
              | some (pre, cap, rem) => some ('{' :: pre, cap, rem)
              | none => none) = _
      rw [hm1]
    have h4 : findMatch ('}' :: ('}' :: rest)) =
        (match findMatch ('}' :: rest) with
         | some (pre, cap, rem) => some ('}' :: pre, cap, rem)
         | none => none) := by
      show (match matchAt ('}' :: ('}' :: rest)) with
            | some (cap, rem) => some ([], cap, rem)
            | none =>
              match findMatch ('}' :: rest) with
              | some (pre, cap, rem) => some ('}' :: pre, cap, rem)
              | none => none) = _
      rw [matchAt_none_of_head_ne '}' ('}' :: rest) (by decide)]
    have h5 : findMatch ('}' :: rest) =
        (match findMatch rest with
         | some (pre, cap, rem) => some ('}' :: pre, cap, rem)
         | none => none) := by
      show (match matchAt ('}' :: rest) with
            | some (cap, rem) => some ([], cap, rem)
            | none =>
              match findMatch rest with
              | some (pre, cap, rem) => some ('}' :: pre, cap, rem)
              | none => none) = _
      rw [matchAt_none_of_head_ne '}' rest (by decide)]
    rw [h2, findMatch_append_noLB body ('}' :: '}' :: rest) (fun a ha => (hb a ha).1),
      h4, h5]
    cases hfr : findMatch rest with
    | none => rfl
    | some x =>
      obtain ⟨pre, cap2, rem⟩ := x
      rfl

/-- A successful identifier read strictly shortens the input. -/
theorem takeIdent_rem_length (s i r : List Char) (h : takeIdent s = some (i, r)) :
    r.length < s.length := by
  cases s with
  | nil => cases h
  | cons c cs =>
    by_cases hid : isIdentStart c
    · have hu : takeIdent (c :: cs) =
          some (c :: cs.takeWhile isIdentChar, cs.dropWhile isIdentChar) := by
        show (if isIdentStart c then
            some (c :: cs.takeWhile isIdentChar, cs.dropWhile isIdentChar) else none) = _
        rw [if_pos hid]
      rw [hu] at h
      cases h
      have := (List.dropWhile_sublist (l := cs) isIdentChar).length_le
      simp only [List.length_cons]
      omega
    · have hu : takeIdent (c :: cs) = none := by
        show (if isIdentStart c then
            some (c :: cs.takeWhile isIdentChar, cs.dropWhile isIdentChar) else none) = _
        rw [if_neg hid]
      rw [hu] at h
      cases h

/-- Goal-side form of `matchAt_rem_length`. -/
theorem matchAt_rem_length_aux (s : List Char) :
    (match matchAt s with
     | some x => x.2.length < s.length
     | none => True) := by
  cases s with
  | nil => trivial
  | cons c1 s1 =>
    cases s1 with
    | nil => trivial
    | cons c2 r0 =>
      by_cases hbb : c1 = '{' ∧ c2 = '{'
      case neg =>
        have hz : matchAt (c1 :: c2 :: r0) = none := by
          show (if c1 = '{' ∧ c2 = '{' then _ else none) = none
          rw [if_neg hbb]
        rw [hz]
        trivial
      case pos =>
        have hu : matchAt (c1 :: c2 :: r0) =
            (match takeIdent (r0.dropWhile isWs) with
             | none => none
             | some (ident, r2) =>
               match r2 with
               | d0 :: r3 =>
                 if d0 = '(' then
                   match stripArgs (r3.takeWhile (fun c => !(c = '}' : Bool))) with
                   | none => none
                   | some args =>
                     match r3.dropWhile (fun c => !(c = '}' : Bool)) with
                     | d1 :: d2 :: r5 =>
                       if d1 = '}' ∧ d2 = '}' then
                         some (ident ++ '(' :: (args ++ [')']), r5)
                       else none
                     | _ => none
                 else none
               | [] => none) := by
          show (if c1 = '{' ∧ c2 = '{' then _ else none) = _
          rw [if_pos hbb]
        rw [hu]
        have l1 : (r0.dropWhile isWs).length ≤ r0.length :=
          (List.dropWhile_sublist (l := r0) isWs).length_le
        cases hti : takeIdent (r0.dropWhile isWs) with
        | none => trivial
        | some pr =>
          obtain ⟨ident, r2⟩ := pr
          have l2 : r2.length < (r0.dropWhile isWs).length :=
            takeIdent_rem_length (r0.dropWhile isWs) ident r2 hti
          cases r2 with
          | nil => trivial
          | cons d0 r3 =>
            by_cases hd : d0 = '('
            case neg =>
              show (match (if d0 = '(' then
                      (match stripArgs (r3.takeWhile (fun c => !(c = '}' : Bool))) with
                       | none => none
                       | some args =>
                         match r3.dropWhile (fun c => !(c = '}' : Bool)) with
                         | d1 :: d2 :: r5 =>
                           if d1 = '}' ∧ d2 = '}' then
                             some (ident ++ '(' :: (args ++ [')']), r5)
                           else none
                         | _ => none)
                    else none) with
                    | some x => x.2.length < (c1 :: c2 :: r0).length
                    | none => True)
              rw [if_neg hd]
              trivial
            case pos =>
              show (match (if d0 = '(' then
                      (match stripArgs (r3.takeWhile (fun c => !(c = '}' : Bool))) with
                       | none => none
                       | some args =>
                         match r3.dropWhile (fun c => !(c = '}' : Bool)) with
                         | d1 :: d2 :: r5 =>
                           if d1 = '}' ∧ d2 = '}' then
                             some (ident ++ '(' :: (args ++ [')']), r5)
                           else none
                         | _ => none)
                    else none) with
                    | some x => x.2.length < (c1 :: c2 :: r0).length
                    | none => True)
              rw [if_pos hd]
              cases hsa : stripArgs (r3.takeWhile (fun c => !(c = '}' : Bool))) with
              | none => trivial
              | some args =>
                have l4 : (r3.dropWhile (fun c => !(c = '}' : Bool))).length ≤ r3.length :=
                  (List.dropWhile_sublist (l := r3) _).length_le
                cases hdw : r3.dropWhile (fun c => !(c = '}' : Bool)) with
                | nil => trivial
                | cons d1 t1 =>
                  cases t1 with
                  | nil => trivial
                  | cons d2 r5 =>
                    by_cases hjj : d1 = '}' ∧ d2 = '}'
                    case neg =>
                      show (match (if d1 = '}' ∧ d2 = '}' then
                              some (ident ++ '(' :: (args ++ [')']), r5)
                            else none) with
                            | some x => x.2.length < (c1 :: c2 :: r0).length
                            | none => True)
                      rw [if_neg hjj]
                      trivial
                    case pos =>
                      show (match (if d1 = '}' ∧ d2 = '}' then
                              some (ident ++ '(' :: (args ++ [')']), r5)
                            else none) with
                            | some x => x.2.length < (c1 :: c2 :: r0).length
                            | none => True)
                      rw [if_pos hjj]
                      show r5.length < (c1 :: c2 :: r0).length
                      rw [hdw] at l4
                      simp only [List.length_cons] at l2 l4 ⊢
                      omega

/-- A successful match strictly shortens the input. -/
theorem matchAt_rem_length (s cap rem : List Char) (h : matchAt s = some (cap, rem)) :
    rem.length < s.length := by
  have haux := matchAt_rem_length_aux s
  rw [h] at haux
  exact haux

/-- The remainder after a found match is strictly shorter than the input. -/
theorem findMatch_rem_length (s pre cap rem : List Char)
    (h : findMatch s = some (pre, cap, rem)) : rem.length < s.length := by
  induction s generalizing pre with
  | nil => cases h
  | cons c cs ih =>
    have hu : findMatch (c :: cs) =
        (match matchAt (c :: cs) with
         | some (cap, rem) => some ([], cap, rem)
         | none =>
           match findMatch cs with
           | some (pre, cap, rem) => some (c :: pre, cap, rem)
           | none => none) := rfl
    rw [hu] at h
    cases hma : matchAt (c :: cs) with
    | some x =>
      obtain ⟨cap2, rem2⟩ := x
      rw [hma] at h
      cases h
      exact matchAt_rem_length (c :: cs) _ _ hma
    | none =>
      rw [hma] at h
      cases hfm : findMatch cs with
      | none =>
        rw [hfm] at h
        cases h
      | some y =>
        obtain ⟨pre2, cap2, rem2⟩ := y
        rw [hfm] at h
        cases h
        have hlen := ih _ hfm
        simp only [List.length_cons]
        omega

/-- Fuel irrelevance of the substitution loop. -/
theorem substituteFuel_irrel (today : NaiveDate) (f1 : Nat) :
    ∀ (s : List Char) (f2 : Nat), s.length < f1 → s.length < f2 →
      substituteFuel today f1 s = substituteFuel today f2 s := by
  induction f1 with
  | zero => intro s f2 h1 _; exact absurd h1 (Nat.not_lt_zero _)
  | succ f1' ih =>
    intro s f2 h1 h2
    cases f2 with
    | zero => exact absurd h2 (Nat.not_lt_zero _)
    | succ f2' =>
      show (match findMatch s with
            | none => Except.ok s
            | some (pre, cap, rem) => _) =
           (match findMatch s with
            | none => Except.ok s
            | some (pre, cap, rem) => _)
      cases hfm : findMatch s with
      | none => rfl
      | some x =>
        obtain ⟨pre, cap, rem⟩ := x
        have hr : rem.length < s.length := findMatch_rem_length s pre cap rem hfm
        show (match parse_function today (String.mk cap) with
              | .error e => Except.error e
              | .ok v =>
                match substituteFuel today f1' rem with
                | .error e => Except.error e
                | .ok rest => Except.ok (pre ++ v.data ++ rest)) = _
        rw [ih rem f2' (by omega) (by omega)]

/-- Concatenation preserves the absence of opening braces. -/
theorem noLB_append (u z : List Char) (hu : noLB u) (hz : noLB z) : noLB (u ++ z) := by
  intro c hc
  rcases List.mem_append.1 hc with h | h
  · exact hu c h
  · exact hz c h

/-- Digit characters are not opening braces. -/
theorem digitChar_ne_lbrace (n : Nat) : digitChar n ≠ '{' := by
  unfold digitChar
  split <;> decide

/-- The digit accumulator never introduces an opening brace. -/
theorem natDigitsAux_noLB (f : Nat) :
    ∀ (n : Nat) (acc : List Char), noLB acc → noLB (natDigitsAux f n acc) := by
  induction f with
  | zero => intro n acc hacc; exact hacc
  | succ f' ih =>
    intro n acc hacc
    show noLB (if n < 10 then digitChar n :: acc else
      natDigitsAux f' (n / 10) (digitChar (n % 10) :: acc))
    by_cases hn : n < 10
    · rw [if_pos hn]
      intro c hc
      rcases List.mem_cons.1 hc with h | h
      · rw [h]; exact digitChar_ne_lbrace n
      · exact hacc c h
    · rw [if_neg hn]
      refine ih (n / 10) (digitChar (n % 10) :: acc) ?_
      intro c hc
      rcases List.mem_cons.1 hc with h | h
      · rw [h]; exact digitChar_ne_lbrace (n % 10)
      · exact hacc c h

/-- Decimal digit strings contain no opening brace. -/
theorem natDigits_noLB (n : Nat) : noLB (natDigits n) :=
  natDigitsAux_noLB 24 n [] (fun c hc => absurd hc (List.not_mem_nil c))

/-- Zero padding contains no opening brace. -/
theorem padZeros_noLB (w : Nat) (ds : List Char) (hd : noLB ds) : noLB (padZeros w ds) := by
  refine noLB_append _ _ ?_ hd
  intro c hc
  rw [List.eq_of_mem_replicate hc]
  decide

/-- Formatted dates contain no opening brace. -/
theorem formatYmd_noLB (t : NaiveDate) : noLB (formatYmd t).data := by
  have hform : formatYmd t = String.mk
      ((if (civilFromDays t.days).1 < 0 then ['-'] else [])
        ++ padZeros 4 (natDigits (civilFromDays t.days).1.natAbs)
        ++ '-' :: padZeros 2 (natDigits (civilFromDays t.days).2.1)
        ++ '-' :: padZeros 2 (natDigits (civilFromDays t.days).2.2)) := by
    unfold formatYmd
    rcases hcv : civilFromDays t.days with ⟨y, m, d⟩
    rfl
  rw [hform]
  show noLB _
  refine noLB_append _ _ (noLB_append _ _ (noLB_append _ _ ?_ ?_) ?_) ?_
  · intro c hc
    by_cases hneg : (civilFromDays t.days).1 < 0
    · rw [if_pos hneg] at hc
      rcases List.mem_cons.1 hc with h | h
      · rw [h]; decide
      · exact absurd h (List.not_mem_nil c)
    · rw [if_neg hneg] at hc
      exact absurd hc (List.not_mem_nil c)
  · exact padZeros_noLB 4 _ (natDigits_noLB _)
  · intro c hc
    rcases List.mem_cons.1 hc with h | h
    · rw [h]; decide
    · exact padZeros_noLB 2 _ (natDigits_noLB _) c h
  · intro c hc
    rcases List.mem_cons.1 hc with h | h
    · rw [h]; decide
    · exact padZeros_noLB 2 _ (natDigits_noLB _) c h

/-- A successful `few_date_ago` yields a formatted date. -/
theorem few_date_ago_ok_shape (today : NaiveDate) (days : Int) (v : String)
    (h : few_date_ago today days = .ok v) : ∃ t, v = formatYmd t := by
  by_cases hneg : days < 0
  · have hv : few_date_ago today days =
        .error (.pipelineError ("days must be non-negative")) := by
      unfold few_date_ago
      rw [if_pos hneg]
    rw [hv] at h
    exact Except.noConfusion h
  · by_cases hbig : durationMaxDays < days
    · have hv : few_date_ago today days =
          .error (.runtimePanic ("Duration::days out of bounds")) := by
        unfold few_date_ago
        rw [if_neg hneg, if_pos hbig]
      rw [hv] at h
      exact Except.noConfusion h
    · have hv : few_date_ago today days =
          (match checkedSubDays today days with
           | none => .error (.pipelineError ("date out of range"))
           | some target => .ok (formatYmd target)) := by
        unfold few_date_ago
        rw [if_neg hneg, if_neg hbig]
      rw [hv] at h
      cases hcs : checkedSubDays today days with
      | none =>
        rw [hcs] at h
        exact Except.noConfusion h
      | some tgt =>
        rw [hcs] at h
        exact ⟨tgt, (Except.ok.inj h).symm⟩

/-- Every successful template-function value is a formatted date, hence free
of opening braces. -/
theorem parse_function_ok_noLB (today : NaiveDate) (input v : String)
    (h : parse_function today input = .ok v) : noLB v.data := by
  by_cases h1 : input = "current_date()"
  · have hv : parse_function today input = .ok (current_date today) := by
      unfold parse_function
      rw [if_pos h1]
    rw [hv] at h
    have : v = current_date today := (Except.ok.inj h).symm
    rw [this]
    exact formatYmd_noLB today
  · by_cases h2 : (("few_date_ago(".data.isPrefixOf input.data)
        && (input.data.getLast? = some ')') : Bool) = true
    · have hv : parse_function today input =
          (match parseI64 ((input.data.drop 13).dropLast) with
           | none => .error (.pipelineError
               ("Invalid argument: " ++ String.mk ((input.data.drop 13).dropLast)))
           | some days => few_date_ago today days) := by
        unfold parse_function
        rw [if_neg h1, if_pos h2]
      rw [hv] at h
      cases hpi : parseI64 ((input.data.drop 13).dropLast) with
      | none =>
        rw [hpi] at h
        exact Except.noConfusion h
      | some days =>
        rw [hpi] at h
        obtain ⟨tgt, htgt⟩ := few_date_ago_ok_shape today days v h
        rw [htgt]
        exact formatYmd_noLB tgt
    · have hv : parse_function today input =
          .error (.pipelineError ("Unknown function: " ++ input)) := by
        unfold parse_function
        rw [if_neg h1, if_neg h2]
      rw [hv] at h
      exact Except.noConfusion h

/-- Prepending opening-brace-free text preserves inertness. -/
theorem Inert_append_noLB (u z : List Char) (hu : noLB u) (hz : Inert z) :
    Inert (u ++ z) := by
  induction hz with
  | plain t ht => exact Inert.plain (u ++ t) (noLB_append u t hu ht)
  | group t body rest ht hb hfail hrest _ih =>
    rw [← List.append_assoc]
    exact Inert.group (u ++ t) body rest (noLB_append u t hu ht) hb hfail hrest

/-- The scanner finds no match in an inert string. -/
theorem Inert_no_match (y : List Char) (hy : Inert y) : findMatch y = none := by
  induction hy with
  | plain t ht => exact findMatch_noLB t ht
  | group t body rest ht hb hfail hrest ih =>
    rw [findMatch_append_noLB t ('{' :: '{' :: (body ++ '}' :: '}' :: rest)) ht,
      findMatch_group body rest hb, hfail, ih]

/-- Main induction: on a string with no nested braces, a successful
substitution pass produces an inert string (every remaining `{{ … }}` group
has a non-call interior, and replaced values introduce no braces). -/
theorem substituteFuel_inert (today : NaiveDate) (x : List Char) (hx : NoNest x) :
    ∀ (f : Nat) (y : List Char), x.length < f → substituteFuel today f x = .ok y →
      Inert y := by
  induction hx with
  | plain t ht =>
    intro f y hf h
    cases f with
    | zero => exact absurd hf (Nat.not_lt_zero _)
    | succ f' =>
      have hfm : findMatch t = none := findMatch_noLB t (fun c hc => (ht c hc).1)
      have hv : substituteFuel today (f' + 1) t = .ok t := by
        show (match findMatch t with
              | none => Except.ok t
              | some (pre, cap, rem) => _) = _
        rw [hfm]
      rw [hv] at h
      cases h
      exact Inert.plain t (fun c hc => (ht c hc).1)
  | group t body rest ht hb hrest ih =>
    intro f y hf h
    cases f with
    | zero => exact absurd hf (Nat.not_lt_zero _)
    | succ f' =>
      have htl : noLB t := fun c hc => (ht c hc).1
      have hxlen : (t ++ '{' :: '{' :: (body ++ '}' :: '}' :: rest)).length =
          t.length + body.length + rest.length + 4 := by
        simp [List.length_append, List.length_cons]
        omega
      have hrlen : rest.length < f' := by
        rw [hxlen] at hf
        omega
      have hfx0 : findMatch (t ++ '{' :: '{' :: (body ++ '}' :: '}' :: rest)) =
          (match findMatch ('{' :: '{' :: (body ++ '}' :: '}' :: rest)) with
           | some (pre, cap, rem) => some (t ++ pre, cap, rem)
           | none => none) :=
        findMatch_append_noLB t _ htl
      cases hbc : bodyCall body with
      | some cap =>
        have hfx : findMatch (t ++ '{' :: '{' :: (body ++ '}' :: '}' :: rest)) =
            some (t, cap, rest) := by
          rw [hfx0, findMatch_group body rest hb, hbc]
          simp
        have hstep : substituteFuel today (f' + 1)
            (t ++ '{' :: '{' :: (body ++ '}' :: '}' :: rest)) =
            (match parse_function today (String.mk cap) with
             | .error e => Except.error e
             | .ok v =>
               match substituteFuel today f' rest with
               | .error e => Except.error e
               | .ok z => Except.ok (t ++ v.data ++ z)) := by
          show (match findMatch (t ++ '{' :: '{' :: (body ++ '}' :: '}' :: rest)) with
                | none => Except.ok _
                | some (pre, cap, rem) =>
                  match parse_function today (String.mk cap) with
                  | .error e => Except.error e
                  | .ok v =>
                    match substituteFuel today f' rem with
                    | .error e => Except.error e
                    | .ok z => Except.ok (pre ++ v.data ++ z)) = _
          rw [hfx]
        rw [hstep] at h
        cases hpf : parse_function today (String.mk cap) with
        | error e =>
          rw [hpf] at h
          exact Except.noConfusion h
        | ok v =>
          rw [hpf] at h
          cases hsub : substituteFuel today f' rest with
          | error e =>
            rw [hsub] at h
            exact Except.noConfusion h
          | ok z =>
            rw [hsub] at h
            have hy : y = t ++ v.data ++ z := (Except.ok.inj h).symm
            have hz : Inert z := ih f' z hrlen hsub
            have hnv : noLB v.data := parse_function_ok_noLB today _ v hpf
            rw [hy]
            exact Inert_append_noLB (t ++ v.data) z (noLB_append t v.data htl hnv) hz
      | none =>
        have hfg : findMatch ('{' :: '{' :: (body ++ '}' :: '}' :: rest)) =
            (match findMatch rest with
             | some (pre, cap, rem) =>
               some ('{' :: '{' :: (body ++ '}' :: '}' :: pre), cap, rem)
             | none => none) := by
          rw [findMatch_group body rest hb, hbc]
        cases hfr : findMatch rest with
        | none =>
          have hfx : findMatch (t ++ '{' :: '{' :: (body ++ '}' :: '}' :: rest)) = none := by
            rw [hfx0, hfg, hfr]
          have hstep2 : substituteFuel today (f' + 1)
              (t ++ '{' :: '{' :: (body ++ '}' :: '}' :: rest)) =
              .ok (t ++ '{' :: '{' :: (body ++ '}' :: '}' :: rest)) := by
            show (match findMatch (t ++ '{' :: '{' :: (body ++ '}' :: '}' :: rest)) with
                  | none => Except.ok (t ++ '{' :: '{' :: (body ++ '}' :: '}' :: rest))
                  | some (pre, cap, rem) => _) = _
            rw [hfx]
          rw [hstep2] at h
          cases h
          have hre : Inert rest := by
            refine ih f' rest hrlen ?_
            cases f' with
            | zero => exact absurd hrlen (Nat.not_lt_zero _)
            | succ f'' =>
              show (match findMatch rest with
                    | none => Except.ok rest
                    | some (pre, cap, rem) => _) = _
              rw [hfr]
          exact Inert.group t body rest htl hb hbc hre
        | some trip =>
          obtain ⟨p, c2, r⟩ := trip
          have hfx : findMatch (t ++ '{' :: '{' :: (body ++ '}' :: '}' :: rest)) =
              some (t ++ '{' :: '{' :: (body ++ '}' :: '}' :: p), c2, r) := by
            rw [hfx0, hfg, hfr]
          have hstep3 : substituteFuel today (f' + 1)
              (t ++ '{' :: '{' :: (body ++ '}' :: '}' :: rest)) =
              (match parse_function today (String.mk c2) with
               | .error e => Except.error e
               | .ok v =>
                 match substituteFuel today f' r with
                 | .error e => Except.error e
                 | .ok z =>
                   Except.ok ((t ++ '{' :: '{' :: (body ++ '}' :: '}' :: p)) ++ v.data ++ z)) := by
            show (match findMatch (t ++ '{' :: '{' :: (body ++ '}' :: '}' :: rest)) with
                  | none => Except.ok _
                  | some (pre, cap, rem) =>
                    match parse_function today (String.mk cap) with
                    | .error e => Except.error e
                    | .ok v =>
                      match substituteFuel today f' rem with
                      | .error e => Except.error e
                      | .ok z => Except.ok (pre ++ v.data ++ z)) = _
            rw [hfx]
          rw [hstep3] at h
          cases hpf : parse_function today (String.mk c2) with
          | error e =>
            rw [hpf] at h
            exact Except.noConfusion h
          | ok v =>
            rw [hpf] at h
            cases hsub : substituteFuel today f' r with
            | error e =>
              rw [hsub] at h
              exact Except.noConfusion h
            | ok z =>
              rw [hsub] at h
              have hy : y = (t ++ '{' :: '{' :: (body ++ '}' :: '}' :: p)) ++ v.data ++ z :=
                (Except.ok.inj h).symm
              have hrl : r.length < rest.length := findMatch_rem_length rest p c2 r hfr
              have hrest_step : substituteFuel today f' rest = .ok (p ++ v.data ++ z) := by
                cases f' with
                | zero => exact absurd hrlen (Nat.not_lt_zero _)
                | succ f'' =>
                  show (match findMatch rest with
                        | none => Except.ok rest
                        | some (pre, cap, rem) =>
                          match parse_function today (String.mk cap) with
                          | .error e => Except.error e
                          | .ok v =>
                            match substituteFuel today f'' rem with
                            | .error e => Except.error e
                            | .ok z2 => Except.ok (pre ++ v.data ++ z2)) = _
                  rw [hfr]
                  show (match parse_function today (String.mk c2) with
                        | .error e => Except.error e
                        | .ok v =>
                          match substituteFuel today f'' r with
                          | .error e => Except.error e
                          | .ok z2 => Except.ok (p ++ v.data ++ z2)) = _
                  rw [hpf, substituteFuel_irrel today f'' r (f'' + 1) (by omega) (by omega),
                    hsub]
              have hz2 : Inert (p ++ v.data ++ z) := ih f' (p ++ v.data ++ z) hrlen hrest_step
              rw [hy]
              have harr : (t ++ '{' :: '{' :: (body ++ '}' :: '}' :: p)) ++ v.data ++ z =
                  t ++ '{' :: '{' :: (body ++ '}' :: '}' :: (p ++ v.data ++ z)) := by
                simp [List.append_assoc]
              rw [harr]
              exact Inert.group t body (p ++ v.data ++ z) htl hb hbc hz2

/-- C9: on every input with no nested braces on which `substitute_templates`
succeeds, the substitution is idempotent: applying it to its own output
returns the output unchanged. -/
theorem substitute_templates_idempotent (today : NaiveDate) (x y : String)
    (hx : NoNest x.data) (h : substitute_templates today x = .ok y) :
    substitute_templates today y = .ok y := by
  unfold substitute_templates at h
  cases hs : substituteFuel today (x.data.length + 1) x.data with
  | error e =>
    rw [hs] at h
    exact Except.noConfusion h
  | ok cs =>
    rw [hs] at h
    have hy : y = String.mk cs := (Except.ok.inj h).symm
    have hin : Inert cs :=
      substituteFuel_inert today x.data hx (x.data.length + 1) cs (Nat.lt_succ_self _) hs
    have hfm : findMatch cs = none := Inert_no_match cs hin
    have hyd : y.data = cs := by rw [hy]
    unfold substitute_templates
    rw [hyd]
    have hsy : substituteFuel today (cs.length + 1) cs = .ok cs := by
      show (match findMatch cs with
            | none => Except.ok cs
            | some (pre, cap, rem) => _) = _
      rw [hfm]
    rw [hsy, hy]

/-- Witness for C9 on a concrete template with one call: the substituted
output is returned unchanged by a second pass. -/
theorem substitute_templates_idempotent_witness :
    NoNest ("a {{ current_date() }} b".data) ∧
    substitute_templates epochDate "a {{ current_date() }} b" = .ok "a 1970-01-01 b" ∧
    substitute_templates epochDate "a 1970-01-01 b" = .ok "a 1970-01-01 b" := by
  have hnn : NoNest ("a {{ current_date() }} b".data) := by
    have hg := NoNest.group ("a ".data) (" current_date() ".data) (" b".data)
      (by decide) (by decide) (.plain _ (by decide))
    have he : ("a ".data ++ '{' :: '{' ::
        (" current_date() ".data ++ '}' :: '}' :: " b".data)) =
        "a {{ current_date() }} b".data := by decide
    rw [he] at hg
    exact hg
  refine ⟨hnn, by decide, ?_⟩
  exact substitute_templates_idempotent epochDate "a {{ current_date() }} b"
    "a 1970-01-01 b" hnn (by decide)

end Apitap
